import Mathlib

/-!
Verification of the EventStore-to-SQLite converter (src/main.py).

Shallow embedding conventions:
* A Python `str` is a list of Unicode code points (`PyStr := List Nat`);
  a Python `bytes` value is a list of byte values (`List Nat`, each < 256).
* Machine integers do not occur (Python integers are unbounded), so `Nat`/`Int`
  are used directly.
* Fallible Python code (raising `EventValidationError`) is embedded with
  `Except`; code that can return "no value" uses `Option`.
* `json.dumps` / `json.loads` (the standard library serializer used by
  `SQLiteEvent`) are embedded over a Python-value type `PyVal` covering the
  payload shapes the converter handles (None, bool, int, str, list, tuple,
  dict, plus an opaque non-serializable object); floats are outside the model.
-/

/-- A Python string: its sequence of Unicode code points. -/
abbrev PyStr : Type := List Nat

/-- Code points of a Lean string literal, for readable concrete Python strings. -/
def pyOf (s : String) : PyStr := s.data.map Char.toNat

/-- Number of bytes the UTF-8 encoding of one code point occupies
    (mirrors CPython's encoder on Unicode scalar values). -/
def cpLen (c : Nat) : Nat :=
  if c < 0x80 then 1 else if c < 0x800 then 2 else if c < 0x10000 then 3 else 4

/-- UTF-8 byte length of a Python string: embedding of
    `len(data_str.encode("utf-8"))` from `_process_event_data`. -/
def utf8Len (s : PyStr) : Nat := (List.map cpLen s).sum

/-- Strict UTF-8 decoding of a byte sequence to code points: embedding of
    `data.decode("utf-8")` from `_process_event_data`. Returns `none` exactly
    when CPython raises `UnicodeDecodeError`: stray continuation bytes,
    overlong forms, surrogates, values above U+10FFFF, truncated sequences. -/
def utf8Decode : List Nat → Option (List Nat)
  | [] => some []
  | b1 :: t1 =>
    if b1 < 0x80 then
      (utf8Decode t1).map (fun s => b1 :: s)
    else if b1 < 0xC2 then none
    else if b1 < 0xE0 then
      match t1 with
      | b2 :: t2 =>
        if b2 / 0x40 = 2 then
          (utf8Decode t2).map (fun s => ((b1 - 0xC0) * 0x40 + (b2 - 0x80)) :: s)
        else none
      | [] => none
    else if b1 < 0xF0 then
      match t1 with
      | b2 :: b3 :: t3 =>
        let cp := (b1 - 0xE0) * 0x1000 + (b2 - 0x80) * 0x40 + (b3 - 0x80)
        if b2 / 0x40 = 2 ∧ b3 / 0x40 = 2 ∧ 0x800 ≤ cp ∧ (cp < 0xD800 ∨ 0xDFFF < cp) then
          (utf8Decode t3).map (fun s => cp :: s)
        else none
      | _ => none
    else if b1 < 0xF5 then
      match t1 with
      | b2 :: b3 :: b4 :: t4 =>
        let cp := (b1 - 0xF0) * 0x40000 + (b2 - 0x80) * 0x1000 + (b3 - 0x80) * 0x40 + (b4 - 0x80)
        if b2 / 0x40 = 2 ∧ b3 / 0x40 = 2 ∧ b4 / 0x40 = 2 ∧ 0x10000 ≤ cp ∧ cp < 0x110000 then
          (utf8Decode t4).map (fun s => cp :: s)
        else none
      | _ => none
    else none

/-- A Python dictionary key as `json.dumps` sees it: the converter's payloads
    may use string or integer keys (integer keys are coerced to their decimal
    string by the serializer). Other hashable key kinds are outside the model. -/
inductive PyKey : Type
  | kStr (s : PyStr)
  | kInt (n : Int)
deriving DecidableEq, Repr

/-- A Python value reaching `json.dumps` in `_process_event_data`: the payload
    kinds other than `None`/`str`/`bytes` (those are handled before the
    serializer is called). `pyObj` stands for any object the serializer
    rejects with `TypeError` (floats are outside the model). -/
inductive PyVal : Type
  | pyNone
  | pyBool (b : Bool)
  | pyInt (n : Int)
  | pyStr (s : PyStr)
  | pyList (xs : List PyVal)
  | pyTuple (xs : List PyVal)
  | pyDict (kvs : List (PyKey × PyVal))
  | pyObj
deriving Repr

/-- Decimal digits of a natural number, with structural fuel so the kernel
    can evaluate it; `natDigs` supplies sufficient fuel. -/
def natDigsAux (fuel n : Nat) : List Nat :=
  match fuel with
  | 0 => []
  | fuel + 1 => if n < 10 then [48 + n] else natDigsAux fuel (n / 10) ++ [48 + n % 10]

/-- Decimal digits (as ASCII code points) of a natural number. -/
def natDigs (n : Nat) : List Nat := natDigsAux (n + 1) n

/-- Decimal representation (ASCII code points) of a Python integer,
    as `json.dumps` and `str()` print it. -/
def intRepr (n : Int) : PyStr :=
  if n < 0 then 45 :: natDigs (n.natAbs) else natDigs n.toNat

/-- One hexadecimal digit (lowercase ASCII), as CPython's `\uXXXX` escapes use. -/
def hexDig (d : Nat) : Nat := if d < 10 then 48 + d else 87 + d

/-- Four-hex-digit rendering of a code unit for a `\uXXXX` escape. -/
def hex4 (n : Nat) : List Nat :=
  [hexDig (n / 4096 % 16), hexDig (n / 256 % 16), hexDig (n / 16 % 16), hexDig (n % 16)]

/-- A `\uXXXX` escape sequence (backslash, letter u, four hex digits). -/
def uEsc (n : Nat) : List Nat := 92 :: 117 :: hex4 n

/-- Escape of a single string code point under `json.dumps` defaults
    (`ensure_ascii=True`): short escapes for quote, backslash and the usual
    control characters, `\uXXXX` for other control and all non-ASCII code
    points, a surrogate pair of escapes above U+FFFF. -/
def escCp (c : Nat) : List Nat :=
  if c = 0x22 then [92, 34]
  else if c = 0x5C then [92, 92]
  else if c = 8 then [92, 98]
  else if c = 9 then [92, 116]
  else if c = 10 then [92, 110]
  else if c = 12 then [92, 102]
  else if c = 13 then [92, 114]
  else if c < 0x20 ∨ 0x7E < c then
    if c < 0x10000 then uEsc c
    else uEsc (0xD800 + (c - 0x10000) / 0x400) ++ uEsc (0xDC00 + (c - 0x10000) % 0x400)
  else [c]

/-- JSON rendering of a Python string: quote, escaped code points, quote. -/
def renderStr (s : PyStr) : PyStr := 34 :: (s.flatMap escCp ++ [34])

/-- JSON rendering of a dictionary key: string keys as-is, integer keys
    coerced to their decimal string (CPython's key coercion in `json.dumps`). -/
def renderKey : PyKey → PyStr
  | .kStr s => renderStr s
  | .kInt n => renderStr (intRepr n)

mutual

/-- Embedding of `json.dumps(data)` with default options: item separator
    is comma-space, key separator colon-space, `ensure_ascii` escaping.
    Total; `pyObj` (which the real serializer rejects) renders as the empty
    string and is fenced off by `serializable` below. -/
def render : PyVal → PyStr
  | .pyNone => pyOf "null"
  | .pyBool true => pyOf "true"
  | .pyBool false => pyOf "false"
  | .pyInt n => intRepr n
  | .pyStr s => renderStr s
  | .pyList xs => 91 :: (renderElems xs ++ [93])
  | .pyTuple xs => 91 :: (renderElems xs ++ [93])
  | .pyDict kvs => 123 :: (renderMembers kvs ++ [125])
  | .pyObj => []

/-- Array elements joined by ", ". -/
def renderElems : List PyVal → PyStr
  | [] => []
  | [x] => render x
  | x :: y :: xs => render x ++ (44 :: 32 :: renderElems (y :: xs))

/-- Object members `key: value` joined by ", ". -/
def renderMembers : List (PyKey × PyVal) → PyStr
  | [] => []
  | [(k, v)] => renderKey k ++ (58 :: 32 :: render v)
  | (k, v) :: m :: kvs =>
      renderKey k ++ (58 :: 32 :: (render v ++ (44 :: 32 :: renderMembers (m :: kvs))))

end

mutual

/-- Whether `json.dumps` accepts the value (no opaque object anywhere);
    its negation is the `TypeError` branch of `_process_event_data`. -/
def serializable : PyVal → Bool
  | .pyNone => true
  | .pyBool _ => true
  | .pyInt _ => true
  | .pyStr _ => true
  | .pyList xs => serializableL xs
  | .pyTuple xs => serializableL xs
  | .pyDict kvs => serializableM kvs
  | .pyObj => false

/-- `serializable` over the elements of a list or tuple. -/
def serializableL : List PyVal → Bool
  | [] => true
  | x :: xs => serializable x && serializableL xs

/-- `serializable` over the values of a dictionary. -/
def serializableM : List (PyKey × PyVal) → Bool
  | [] => true
  | (_, v) :: kvs => serializable v && serializableM kvs

end

/-- Embedding of `json.dumps(data)` as used at src/main.py line 147: fails
    (with `TypeError`/`ValueError`, i.e. `none`) exactly on values containing
    a non-serializable object, otherwise returns the rendered text. -/
def dumps (v : PyVal) : Option PyStr :=
  if serializable v then some (render v) else none

/-- JSON whitespace (space, tab, newline, carriage return). -/
def isWsCp (c : Nat) : Bool := c == 32 || c == 9 || c == 10 || c == 13

/-- Drop leading JSON whitespace. -/
def skipWs : List Nat → List Nat
  | [] => []
  | c :: cs => if isWsCp c then skipWs cs else c :: cs

/-- ASCII decimal digit test. -/
def isDigCp (c : Nat) : Bool := 48 ≤ c && c ≤ 57

/-- Value of one hexadecimal digit (either case), `none` on a non-hex character. -/
def hexVal (c : Nat) : Option Nat :=
  if 48 ≤ c ∧ c ≤ 57 then some (c - 48)
  else if 97 ≤ c ∧ c ≤ 102 then some (c - 87)
  else if 65 ≤ c ∧ c ≤ 70 then some (c - 55)
  else none

/-- Value of a four-hex-digit escape body. -/
def hex4Val (a b c d : Nat) : Option Nat :=
  match hexVal a, hexVal b, hexVal c, hexVal d with
  | some va, some vb, some vc, some vd => some (((va * 16 + vb) * 16 + vc) * 16 + vd)
  | _, _, _, _ => none

/-- Single-character JSON escapes accepted after a backslash. -/
def unescCp (e : Nat) : Option Nat :=
  if e = 34 then some 34
  else if e = 92 then some 92
  else if e = 47 then some 47
  else if e = 98 then some 8
  else if e = 102 then some 12
  else if e = 110 then some 10
  else if e = 114 then some 13
  else if e = 116 then some 9
  else none

/-- Surrogate-pair lookahead after a high-surrogate `\uXXXX` escape,
    mirroring CPython's `scanstring`: a following `\uXXXX` low surrogate is
    recombined; a following `\u` escape with bad hex is an error; anything
    else leaves the lone code unit in place. -/
def escSurr (n : Nat) (rest3 : List Nat) : Option (Nat × List Nat) :=
  match rest3 with
  | 92 :: 117 :: a2 :: b2 :: c2 :: d2 :: rest4 =>
    match hex4Val a2 b2 c2 d2 with
    | none => none
    | some m =>
      if 0xDC00 ≤ m ∧ m < 0xE000 then
        some (0x10000 + (n - 0xD800) * 0x400 + (m - 0xDC00), rest4)
      else some (n, rest3)
  | _ => some (n, rest3)

/-- Scan of a `\uXXXX` escape body (after the backslash and the letter u). -/
def escUni (cs : List Nat) : Option (Nat × List Nat) :=
  match cs with
  | a :: b :: c3 :: d :: rest3 =>
    match hex4Val a b c3 d with
    | none => none
    | some n =>
      if 0xD800 ≤ n ∧ n < 0xDC00 then escSurr n rest3 else some (n, rest3)
  | _ => none

/-- Scan of one escape sequence (after the backslash): `\uXXXX` or a
    single-character escape. Returns the decoded code point and remainder. -/
def escStep (cs : List Nat) : Option (Nat × List Nat) :=
  match cs with
  | [] => none
  | e :: rest2 =>
    if e = 117 then escUni rest2
    else (unescCp e).map (fun u => (u, rest2))

/-- JSON string-body scanner (after the opening quote), mirroring CPython's
    `scanstring`: literal characters up to the closing quote, escapes via
    `escStep`, and rejection of unescaped control characters (strict mode).
    Fuel-structural; every step consumes input, so callers pass the input
    length plus one. -/
def parseStrAux : Nat → List Nat → List Nat → Option (PyStr × List Nat)
  | 0, _, _ => none
  | fuel + 1, acc, cs =>
    match cs with
    | [] => none
    | c :: rest =>
      if c = 34 then some (acc.reverse, rest)
      else if c = 92 then
        match escStep rest with
        | none => none
        | some (u, rest2) => parseStrAux fuel (u :: acc) rest2
      else if c < 32 then none
      else parseStrAux fuel (c :: acc) rest

/-- Split the longest leading run of decimal digits from the input. -/
def takeDigs : List Nat → List Nat × List Nat
  | [] => ([], [])
  | c :: rest =>
    if isDigCp c then
      let p := takeDigs rest
      (c :: p.1, p.2)
    else ([], c :: rest)

/-- Numeric value of a digit run. -/
def digsVal (ds : List Nat) : Nat := ds.foldl (fun acc c => acc * 10 + (c - 48)) 0

/-- Integer literal scanner (optional minus sign, then digits). The converter's
    payload model has no floats, so fraction/exponent parts are not modelled. -/
def parseIntCp : List Nat → Option (Int × List Nat)
  | [] => none
  | c :: rest =>
    if c = 45 then
      let p := takeDigs rest
      if p.1 = [] then none else some (-(digsVal p.1 : Int), p.2)
    else
      let p := takeDigs (c :: rest)
      if p.1 = [] then none else some ((digsVal p.1 : Int), p.2)

/-- Expect an exact literal word, returning the remainder. -/
def dropLit : List Nat → List Nat → Option (List Nat)
  | [], cs => some cs
  | p :: ps, c :: cs => if c = p then dropLit ps cs else none
  | _ :: _, [] => none

mutual

/-- Embedding of `json.loads` value dispatch (fuel-structural; `loads` below
    supplies sufficient fuel). Objects come back with string keys, as in
    Python. Floats and the NaN/Infinity constants are outside the model. -/
def parseVal : Nat → List Nat → Option (PyVal × List Nat)
  | 0, _ => none
  | fuel + 1, cs =>
    match skipWs cs with
    | [] => none
    | c :: rest =>
      if c = 110 then (dropLit (pyOf "ull") rest).map (fun r => (.pyNone, r))
      else if c = 116 then (dropLit (pyOf "rue") rest).map (fun r => (.pyBool true, r))
      else if c = 102 then (dropLit (pyOf "alse") rest).map (fun r => (.pyBool false, r))
      else if c = 34 then
        (parseStrAux (rest.length + 1) [] rest).map (fun p => (.pyStr p.1, p.2))
      else if c = 91 then
        match skipWs rest with
        | [] => none
        | c2 :: r2 =>
          if c2 = 93 then some (.pyList [], r2)
          else parseElems fuel (c2 :: r2) []
      else if c = 123 then
        match skipWs rest with
        | [] => none
        | c2 :: r2 =>
          if c2 = 125 then some (.pyDict [], r2)
          else parseMembers fuel (c2 :: r2) []
      else if c = 45 ∨ isDigCp c then
        (parseIntCp (c :: rest)).map (fun p => (.pyInt p.1, p.2))
      else none

/-- Non-empty array tail: value, then comma-and-recurse or closing bracket. -/
def parseElems : Nat → List Nat → List PyVal → Option (PyVal × List Nat)
  | 0, _, _ => none
  | fuel + 1, cs, acc =>
    match parseVal fuel cs with
    | none => none
    | some (v, r) =>
      match skipWs r with
      | 44 :: r2 => parseElems fuel r2 (acc ++ [v])
      | 93 :: r2 => some (.pyList (acc ++ [v]), r2)
      | _ => none

/-- Non-empty object tail: string key, colon, value, then comma or brace. -/
def parseMembers : Nat → List Nat → List (PyKey × PyVal) → Option (PyVal × List Nat)
  | 0, _, _ => none
  | fuel + 1, cs, acc =>
    match skipWs cs with
    | 34 :: rest =>
      match parseStrAux (rest.length + 1) [] rest with
      | none => none
      | some (k, r) =>
        match skipWs r with
        | 58 :: r2 =>
          match parseVal fuel r2 with
          | none => none
          | some (v, r3) =>
            match skipWs r3 with
            | 44 :: r4 => parseMembers fuel r4 (acc ++ [(.kStr k, v)])
            | 125 :: r4 => some (.pyDict (acc ++ [(.kStr k, v)]), r4)
            | _ => none
        | _ => none
    | _ => none

end

/-- Embedding of `json.loads(text)`: parse one value, then require only
    trailing whitespace. -/
def loads (s : PyStr) : Option PyVal :=
  match parseVal (s.length + 1) s with
  | some (v, rest) => if skipWs rest = [] then some v else none
  | none => none

/-- A well-formed Python text: every code point is a Unicode scalar value
    (no lone surrogates — CPython strings may hold those, but they already
    break `json` round-trips inside Python itself). -/
def wfStr (s : PyStr) : Bool :=
  s.all fun c => decide (c < 0xD800) || (decide (0xDFFF < c) && decide (c < 0x110000))

/-- Pairwise-distinct dictionary keys (automatic for a real Python `dict`;
    stated explicitly because the embedding models a dict as a pair list). -/
def nodupKeys : List (PyKey × PyVal) → Bool
  | [] => true
  | (k, _) :: rest => !(rest.any fun p => decide (p.1 = k)) && nodupKeys rest

mutual

/-- The JSON-faithful fragment of Python values: scalar-valued strings,
    no tuples, no non-serializable objects, and dictionaries whose keys are
    all well-formed strings and pairwise distinct. -/
def wfVal : PyVal → Bool
  | .pyNone => true
  | .pyBool _ => true
  | .pyInt _ => true
  | .pyStr s => wfStr s
  | .pyList xs => wfL xs
  | .pyTuple _ => false
  | .pyDict kvs => wfM kvs && nodupKeys kvs
  | .pyObj => false

/-- `wfVal` over list elements. -/
def wfL : List PyVal → Bool
  | [] => true
  | x :: xs => wfVal x && wfL xs

/-- `wfVal` over members: string keys only, well-formed, well-formed values. -/
def wfM : List (PyKey × PyVal) → Bool
  | [] => true
  | (.kStr k, v) :: kvs => wfStr k && wfVal v && wfM kvs
  | (.kInt _, _) :: _ => false

end

mutual

/-- Parser-fuel cost of a value (one unit per parser recursion step). -/
def cnt : PyVal → Nat
  | .pyList xs => cntL xs + 1
  | .pyTuple xs => cntL xs + 1
  | .pyDict kvs => cntM kvs + 1
  | _ => 1

/-- Fuel cost of array elements. -/
def cntL : List PyVal → Nat
  | [] => 0
  | x :: xs => cnt x + cntL xs + 1

/-- Fuel cost of object members. -/
def cntM : List (PyKey × PyVal) → Nat
  | [] => 0
  | (_, v) :: kvs => cnt v + cntM kvs + 1

end

/-- A value held by one of the seven positioning attributes of a recorded
    event: an integer, a string, or a datetime (carrying its Unix-seconds
    timestamp, the only facet `_serialize_metadata` reads via `.timestamp()`).
    Following the client's data model and the repository's tests, the
    attribute values are of these serializable kinds. -/
inductive MetaVal : Type
  | mInt (n : Int)
  | mStr (s : PyStr)
  | mDatetime (ts : Int)
deriving DecidableEq, Repr

/-- The seven positioning attributes collected by `_serialize_metadata`. -/
inductive MetaKey : Type
  | streamPosition
  | commitPosition
  | preparePosition
  | retryCount
  | link
  | contentType
  | created
deriving DecidableEq, Repr, Fintype

/-- The JSON key string used for each attribute. -/
def metaKeyName : MetaKey → PyStr
  | .streamPosition => pyOf "stream_position"
  | .commitPosition => pyOf "commit_position"
  | .preparePosition => pyOf "prepare_position"
  | .retryCount => pyOf "retry_count"
  | .link => pyOf "link"
  | .contentType => pyOf "content_type"
  | .created => pyOf "created"

/-- Collection order of the `metadata` dict literal in `_serialize_metadata`. -/
def metaKeyOrder : List MetaKey :=
  [.streamPosition, .commitPosition, .preparePosition, .retryCount, .link,
   .contentType, .created]

/-- Payload of a recorded event as `_process_event_data` receives it:
    absent (`None`), raw bytes, text, or a structured value handed to
    `json.dumps`. -/
inductive EventData : Type
  | absent
  | binary (b : List Nat)
  | text (s : PyStr)
  | structured (v : PyVal)

/-- The seven positioning attributes of an event (`none` = Python `None`;
    a `RecordedEvent` always carries the attributes, so `getattr` with a
    default reduces to a plain field read). -/
structure RawMeta where
  stream_position : Option MetaVal := none
  commit_position : Option MetaVal := none
  prepare_position : Option MetaVal := none
  retry_count : Option MetaVal := none
  link : Option MetaVal := none
  content_type : Option MetaVal := none
  created : Option MetaVal := none
deriving DecidableEq, Repr

/-- Field lookup corresponding to `getattr(event, key, default)` in
    `_serialize_metadata` (the attributes exist on every `RecordedEvent`,
    so the defaults never fire). -/
def getMeta (m : RawMeta) : MetaKey → Option MetaVal
  | .streamPosition => m.stream_position
  | .commitPosition => m.commit_position
  | .preparePosition => m.prepare_position
  | .retryCount => m.retry_count
  | .link => m.link
  | .contentType => m.content_type
  | .created => m.created

/-- The per-value step of the cleaning loop: `hasattr(value, "timestamp")`
    holds exactly for datetime values, which are converted with
    `int(value.timestamp())`; other present values pass through. -/
def cleanVal : MetaVal → PyVal
  | .mInt n => .pyInt n
  | .mStr s => .pyStr s
  | .mDatetime ts => .pyInt ts

/-- Embedding of the `cleaned_metadata` loop of `_serialize_metadata`:
    iterate the dict literal in insertion order, drop `None` values,
    convert datetimes to integer Unix seconds. -/
def cleanMetadata (m : RawMeta) : List (PyKey × PyVal) :=
  metaKeyOrder.filterMap fun k =>
    (getMeta m k).map fun v => (.kStr (metaKeyName k), cleanVal v)

/-- Embedding of `SQLiteEvent._serialize_metadata`: serialize the cleaned
    mapping with `json.dumps`. Total — every cleaned value is an integer or
    a string, so the serializer cannot fail. -/
def serialize_metadata (m : RawMeta) : PyStr :=
  render (.pyDict (cleanMetadata m))

/-- A recorded event as the converter reads it: identifier (already a
    string), type tag, stream name, recorded timestamp, payload, and the
    positioning attributes. `recorded_at` is the integer Unix timestamp that
    `int(event.recorded_at.timestamp())` yields. -/
structure RawEvent where
  id : PyStr
  type_ : Option PyStr
  stream_name : Option PyStr
  recorded_at : Int
  data : EventData
  meta : RawMeta

/-- The validation failures `EventValidationError` reports in
    `_process_event_data`. -/
inductive VErr : Type
  | invalidEncoding
  | unserializable
  | tooLarge
deriving DecidableEq, Repr

/-- `SQLiteEvent.MAX_DATA_SIZE`: the 1 MiB payload limit. -/
def MAX_DATA_SIZE : Nat := 1024 * 1024

/-- Size gate applied once a text payload has been resolved: with validation
    on, a UTF-8 byte length above `MAX_DATA_SIZE` raises `TooLarge`;
    otherwise the text is returned unmodified. -/
def sizeGate (s : PyStr) (validate : Bool) : Except VErr (Option PyStr) :=
  if validate ∧ utf8Len s > MAX_DATA_SIZE then .error .tooLarge else .ok (some s)

/-- Embedding of `SQLiteEvent._process_event_data`: `None` passes through;
    bytes are UTF-8-decoded (failure: `InvalidEncoding` when validating,
    else an absent payload); text is used as-is; anything else goes through
    `json.dumps` (failure: `Unserializable` when validating, else absent);
    finally the resolved text passes the size gate. -/
def process_event_data (data : EventData) (validate : Bool) : Except VErr (Option PyStr) :=
  match data with
  | .absent => .ok none
  | .binary b =>
    match utf8Decode b with
    | some s => sizeGate s validate
    | none => if validate then .error .invalidEncoding else .ok none
  | .text s => sizeGate s validate
  | .structured v =>
    match dumps v with
    | some s => sizeGate s validate
    | none => if validate then .error .unserializable else .ok none

/-- Python truthiness defaulting `event.type or "unknown"`: `None` and the
    empty string are replaced by the default. -/
def pyOrDefault (x : Option PyStr) (d : PyStr) : PyStr :=
  match x with
  | none => d
  | some s => if s = [] then d else s

/-- The string constant substituted for absent type/stream fields. -/
def unknownStr : PyStr := pyOf "unknown"

/-- A normalized record as `SQLiteEvent.__init__` builds it (the row shape
    written to the `events` table). -/
structure SQLiteEvent where
  id : PyStr
  type_ : PyStr
  stream_name : PyStr
  recorded_at : Int
  data : Option PyStr
  eventstore_metadata : PyStr
deriving DecidableEq, Repr

/-- Embedding of `SQLiteEvent.__init__`: copy/default the scalar fields,
    process the payload (possibly raising a validation error), serialize
    the positioning metadata. -/
def normalizeEvent (ev : RawEvent) (validate : Bool) : Except VErr SQLiteEvent :=
  (process_event_data ev.data validate).map fun d =>
    { id := ev.id
      type_ := pyOrDefault ev.type_ unknownStr
      stream_name := pyOrDefault ev.stream_name unknownStr
      recorded_at := ev.recorded_at
      data := d
      eventstore_metadata := serialize_metadata ev.meta }

/-- In-transaction and durable contents of the open SQLite connection:
    the `events` table and the `conversion_metadata` table, each with the
    current (possibly uncommitted) view and the last durably committed view.
    `connect()` on a fresh database file yields empty tables. -/
structure ConnState where
  events : List SQLiteEvent := []
  committedEvents : List SQLiteEvent := []
  meta : List (PyStr × PyStr) := []
  committedMeta : List (PyStr × PyStr) := []
deriving DecidableEq, Repr

/-- Embedding of `SQLiteEventStore`: the configuration's commit frequency,
    the optional connection, and the session counters. -/
structure EventStore where
  commit_frequency : Nat
  connection : Option ConnState
  events_processed : Nat := 0
  batches_processed : Nat := 0
deriving DecidableEq, Repr

/-- A store as `connect()` leaves it on a fresh database file: schema
    created, both tables empty, counters zero. -/
def freshStore (commit_frequency : Nat) : EventStore :=
  { commit_frequency := commit_frequency, connection := some {} }

/-- Rows with a given id removed; the delete half of SQLite's
    `INSERT OR REPLACE` conflict handling on the primary key. -/
def removeId (i : PyStr) : List SQLiteEvent → List SQLiteEvent
  | [] => []
  | r :: rs => if r.id = i then removeId i rs else r :: removeId i rs

/-- One `INSERT OR REPLACE INTO events` row: the conflicting row (if any)
    is deleted and the new row inserted. -/
def upsertRow (tbl : List SQLiteEvent) (r : SQLiteEvent) : List SQLiteEvent :=
  removeId r.id tbl ++ [r]

/-- `executemany` over the batch: the rows are upserted in list order. -/
def upsertMany (tbl : List SQLiteEvent) (rows : List SQLiteEvent) : List SQLiteEvent :=
  rows.foldl upsertRow tbl

/-- Key-value upsert into `conversion_metadata`. -/
def upsertMeta (tbl : List (PyStr × PyStr)) (k v : PyStr) : List (PyStr × PyStr) :=
  (tbl.filter fun p => !(decide (p.1 = k))) ++ [(k, v)]

/-- `connection.commit()`: the current views become durable. -/
def commitConn (c : ConnState) : ConnState :=
  { c with committedEvents := c.events, committedMeta := c.meta }

/-- Embedding of `SQLiteEventStore.save_events_batch`: no-op on an empty
    batch or missing connection; otherwise upsert all rows, bump both
    counters, and commit exactly when the bumped batch counter is a multiple
    of `commit_frequency`. The returned flag reports whether a durable
    commit was issued by this call. -/
def save_events_batch (st : EventStore) (events : List SQLiteEvent) : EventStore × Bool :=
  match st.connection with
  | none => (st, false)
  | some c =>
    if events = [] then (st, false)
    else
      let c1 := { c with events := upsertMany c.events events }
      let ep := st.events_processed + events.length
      let bp := st.batches_processed + 1
      if bp % st.commit_frequency = 0 then
        ({ st with connection := some (commitConn c1),
                   events_processed := ep, batches_processed := bp }, true)
      else
        ({ st with connection := some c1,
                   events_processed := ep, batches_processed := bp }, false)

/-- Embedding of `SQLiteEventStore.update_conversion_metadata`: a plain
    upsert into the metadata table, no commit; no-op without a connection. -/
def update_conversion_metadata (st : EventStore) (k v : PyStr) : EventStore :=
  match st.connection with
  | none => st
  | some c => { st with connection := some { c with meta := upsertMeta c.meta k v } }

/-- Statistics `get_stats` reads from the connection's current view:
    `SELECT COUNT(*)` and `SELECT MIN(recorded_at), MAX(recorded_at)` plus
    the session counters (file size is not modelled). Returns `none` for the
    empty dictionary produced without a connection. -/
structure StoreStats where
  total_events : Nat
  events_processed_this_session : Nat
  batches_processed : Nat
  date_min : Option Int
  date_max : Option Int
deriving DecidableEq, Repr

/-- Embedding of `SQLiteEventStore.get_stats`. -/
def get_stats (st : EventStore) : Option StoreStats :=
  st.connection.map fun c =>
    { total_events := c.events.length
      events_processed_this_session := st.events_processed
      batches_processed := st.batches_processed
      date_min := (c.events.map fun r => r.recorded_at).min?
      date_max := (c.events.map fun r => r.recorded_at).max? }

/-- Driver calls `close()` issues on an open connection, in order: final
    commit, the two bookkeeping upserts, a second commit, releasing the
    handle. -/
inductive DbAction : Type
  | commitAct
  | metaWrite (k v : PyStr)
  | release
deriving DecidableEq, Repr

/-- Effect of one close-sequence action on the connection. -/
def applyAction (c : ConnState) : DbAction → ConnState
  | .commitAct => commitConn c
  | .metaWrite k v => { c with meta := upsertMeta c.meta k v }
  | .release => c

/-- The five actions `close()` attempts, given the wall-clock time and the
    session counter it records. -/
def closeSeq (now : Int) (processed : Nat) : List DbAction :=
  [.commitAct,
   .metaWrite (pyOf "last_conversion") (intRepr now),
   .metaWrite (pyOf "total_events") (intRepr (processed : Int)),
   .commitAct,
   .release]

/-- Result of a `close()` call: the store afterwards, the trace of driver
    actions that actually ran, and the durable contents left in the database
    file once the handle is gone (the committed views; `none` when there was
    no connection to release, leaving the file untouched). -/
structure CloseOut where
  store : EventStore
  trace : List DbAction
  disk : Option (List SQLiteEvent × List (PyStr × PyStr))
deriving DecidableEq, Repr

/-- Embedding of `SQLiteEventStore.close`: a no-op without a connection;
    otherwise the close sequence runs until it completes or the driver
    raises after `failAfter` steps (`none` = no failure). Any driver error
    is caught and logged, never propagated, and the `finally` block clears
    the connection handle in every case. -/
def closeStore (st : EventStore) (now : Int) (failAfter : Option Nat) : CloseOut :=
  match st.connection with
  | none => ⟨st, [], none⟩
  | some c =>
    let steps := closeSeq now st.events_processed
    let executed := match failAfter with
      | none => steps
      | some k => steps.take k
    let final := executed.foldl applyAction c
    ⟨{ st with connection := none }, executed,
     some (final.committedEvents, final.committedMeta)⟩

/-- One pull from the source's lazy `read_response` sequence: either the
    iterator yields an event, or it raises while producing the next one. -/
inductive PullStep : Type
  | yield (e : RawEvent)
  | raiseRead

/-- How a run of the ingest loop ended: the source was exhausted, or an
    exception escaped the loop. -/
inductive LoopExit : Type
  | completed
  | raised
deriving DecidableEq, Repr

/-- Observable outcome of the `convert_events` ingest loop. `saves` is the
    sequence of batches handed to `save_events_batch`, in order; `buffered`
    is the in-memory batch at the moment the loop stopped iterating (before
    any draining); `stopped` records that `read_response.stop()` ran
    (the `finally` block). -/
structure LoopOut where
  exit : LoopExit
  total_processed : Nat
  skipped_events : Nat
  buffered : List SQLiteEvent
  store : EventStore
  saves : List (List SQLiteEvent)
  stopped : Bool
deriving Repr

/-- Embedding of the event loop of `convert_events` (src/main.py lines
    498-527): pull events one at a time; a validation failure skips the
    event; a successful normalization is buffered; a full buffer is flushed
    and cleared; when the source is exhausted a non-empty remainder is
    flushed; an exception from the iterator escapes the loop, running only
    the `finally: read_response.stop()` — the remainder is not drained. -/
def convertLoop (batch_size : Nat) (validate : Bool) :
    List PullStep → List SQLiteEvent → Nat → Nat → EventStore →
    List (List SQLiteEvent) → LoopOut
  | [], batch, total, skipped, st, log =>
    if batch = [] then
      ⟨.completed, total, skipped, batch, st, log, true⟩
    else
      let p := save_events_batch st batch
      ⟨.completed, total + batch.length, skipped, batch, p.1, log ++ [batch], true⟩
  | .raiseRead :: _, batch, total, skipped, st, log =>
    ⟨.raised, total, skipped, batch, st, log, true⟩
  | .yield e :: rest, batch, total, skipped, st, log =>
    match normalizeEvent e validate with
    | .error _ => convertLoop batch_size validate rest batch total (skipped + 1) st log
    | .ok row =>
      let batch1 := batch ++ [row]
      if batch_size ≤ batch1.length then
        let p := save_events_batch st batch1
        convertLoop batch_size validate rest [] (total + batch1.length) skipped p.1
          (log ++ [batch1])
      else
        convertLoop batch_size validate rest batch1 total skipped st log

/-- Final statistics `convert_events` returns on a successful run. -/
structure RunStats where
  store_stats : StoreStats
  conversion_duration_seconds : ℚ
  events_per_second : ℚ
  skipped_events : Nat
deriving DecidableEq, Repr

/-- Embedding of `convert_events` over a fresh destination database:
    connect, run the ingest loop, and on a normal exit assemble the final
    statistics (throughput guarded to zero when the elapsed time is zero);
    an escaped exception propagates (`none`). Elapsed wall-clock time is an
    input, as a rational (CPython measures a float; the guard and the
    zero-numerator cases at issue here agree between the two). -/
def convert_events (batch_size commit_frequency : Nat) (validate : Bool)
    (src : List PullStep) (duration : ℚ) : Option RunStats :=
  let out := convertLoop batch_size validate src [] 0 0 (freshStore commit_frequency) []
  match out.exit with
  | .raised => none
  | .completed =>
    (get_stats out.store).map fun s =>
      { store_stats := s
        conversion_duration_seconds := duration
        events_per_second :=
          if duration > 0 then (out.total_processed : ℚ) / duration else 0
        skipped_events := out.skipped_events }

/-- The batch partition the loop is specified to produce: chunks of
    `batch_size` in arrival order, with the non-empty remainder as the final
    (single) extra flush. -/
def batchesOf (batch_size : Nat) (acc : List SQLiteEvent) :
    List SQLiteEvent → List (List SQLiteEvent)
  | [] => if acc = [] then [] else [acc]
  | r :: rs =>
    let acc1 := acc ++ [r]
    if batch_size ≤ acc1.length then acc1 :: batchesOf batch_size [] rs
    else batchesOf batch_size acc1 rs

/-- The rows the loop's normalization step accepts, in arrival order. -/
def okRows (validate : Bool) (src : List PullStep) : List SQLiteEvent :=
  src.filterMap fun p =>
    match p with
    | .yield e => (normalizeEvent e validate).toOption
    | .raiseRead => none

/-- Whether the source sequence iterates to exhaustion without raising. -/
def noRaise (src : List PullStep) : Bool :=
  src.all fun p => match p with | .yield _ => true | .raiseRead => false

/-- Commit flags of a sequence of `save_events_batch` calls, in order:
    the store is threaded through, and each entry records whether that call
    issued a durable commit. -/
def commitFlags : EventStore → List (List SQLiteEvent) → List Bool
  | _, [] => []
  | st, b :: bs =>
    let p := save_events_batch st b
    p.2 :: commitFlags p.1 bs

/-- A concrete valid event used to instantiate theorems with hypotheses. -/
def evA : RawEvent :=
  { id := pyOf "e1", type_ := some (pyOf "TestEvent"),
    stream_name := some (pyOf "test-stream"), recorded_at := 1672574400,
    data := .absent, meta := {} }

/-- A concrete event whose type tag and stream name are the empty string. -/
def evEmptyNames : RawEvent :=
  { id := pyOf "e2", type_ := some [], stream_name := some [],
    recorded_at := 1672574400, data := .text (pyOf "x"), meta := {} }

/-- A concrete event carrying undecodable bytes. -/
def evBadBytes : RawEvent :=
  { id := pyOf "e3", type_ := some (pyOf "T"), stream_name := some (pyOf "s"),
    recorded_at := 1, data := .binary [0xFF, 0xFE, 0xFD], meta := {} }

/-- A concrete oversized text payload (one byte above the 1 MiB limit). -/
def bigPayload : PyStr := List.replicate (MAX_DATA_SIZE + 1) 97

/-- A concrete event carrying the oversized text payload. -/
def evBig : RawEvent :=
  { id := pyOf "e4", type_ := some (pyOf "T"), stream_name := some (pyOf "s"),
    recorded_at := 1, data := .text bigPayload, meta := {} }

/-- A concrete event with a small text payload. -/
def evSmall : RawEvent :=
  { id := pyOf "e5", type_ := some (pyOf "T"), stream_name := some (pyOf "s"),
    recorded_at := 1, data := .text (pyOf "x"), meta := {} }

/-- A concrete normalized row for store-level theorems. -/
def rowA : SQLiteEvent :=
  { id := pyOf "e1", type_ := pyOf "T", stream_name := pyOf "s",
    recorded_at := 1, data := none, eventstore_metadata := pyOf "\x7b\x7d" }

/-- A second concrete row with the same id and different content. -/
def rowA2 : SQLiteEvent :=
  { id := pyOf "e1", type_ := pyOf "T2", stream_name := pyOf "s2",
    recorded_at := 2, data := some (pyOf "d"), eventstore_metadata := pyOf "\x7b\x7d" }

/-- Whether a byte sequence does not begin with a decimal digit: the
    delimiter condition after an integer literal. -/
def notDigStart : List Nat → Bool
  | [] => true
  | c :: _ => !(isDigCp c)

/-! ### Theorems -/

/-- The UTF-8 length of a constant-repeated payload, for concrete witnesses. -/
theorem utf8Len_replicate (n c : Nat) : utf8Len (List.replicate n c) = n * cpLen c := by
  simp [utf8Len, List.map_replicate, List.sum_replicate, smul_eq_mul]

/-- Claim C5: for every RawEvent whose payload is a byte sequence that is not
    valid UTF-8, normalization with validate=true fails with the
    InvalidEncoding validation error, and normalization with validate=false
    succeeds with an absent payload. -/
theorem claim_C5 (ev : RawEvent) (b : List Nat) (hdata : ev.data = .binary b)
    (hbad : utf8Decode b = none) :
    normalizeEvent ev true = .error .invalidEncoding ∧
    ∃ r, normalizeEvent ev false = .ok r ∧ r.data = none := by
  refine ⟨?_, ⟨{ id := ev.id, type_ := pyOrDefault ev.type_ unknownStr,
                 stream_name := pyOrDefault ev.stream_name unknownStr,
                 recorded_at := ev.recorded_at, data := none,
                 eventstore_metadata := serialize_metadata ev.meta }, ?_, rfl⟩⟩ <;>
    simp [normalizeEvent, hdata, process_event_data, hbad, Except.map]

/-- Witness for C5 at a concrete event with bytes FF FE FD. -/
theorem claim_C5_witness :
    evBadBytes.data = .binary [0xFF, 0xFE, 0xFD] ∧
    utf8Decode [0xFF, 0xFE, 0xFD] = none ∧
    (normalizeEvent evBadBytes true = .error .invalidEncoding ∧
      ∃ r, normalizeEvent evBadBytes false = .ok r ∧ r.data = none) :=
  ⟨rfl, rfl, claim_C5 evBadBytes [0xFF, 0xFE, 0xFD] rfl rfl⟩

/-- Claim C4: a text payload whose UTF-8 byte length exceeds 1,048,576 makes
    validating normalization fail with TooLarge while non-validating
    normalization preserves it unmodified, and payloads at or below the limit
    never trigger the TooLarge error. -/
theorem claim_C4 :
    (∀ (ev : RawEvent) (s : PyStr), ev.data = .text s →
      MAX_DATA_SIZE < utf8Len s →
      normalizeEvent ev true = .error .tooLarge ∧
      ∃ r, normalizeEvent ev false = .ok r ∧ r.data = some s) ∧
    (∀ (ev : RawEvent) (s : PyStr) (validate : Bool), ev.data = .text s →
      utf8Len s ≤ MAX_DATA_SIZE →
      normalizeEvent ev validate ≠ .error .tooLarge) := by
  constructor
  · intro ev s hdata hbig
    refine ⟨?_, ⟨{ id := ev.id, type_ := pyOrDefault ev.type_ unknownStr,
                   stream_name := pyOrDefault ev.stream_name unknownStr,
                   recorded_at := ev.recorded_at, data := some s,
                   eventstore_metadata := serialize_metadata ev.meta }, ?_, rfl⟩⟩ <;>
      simp [normalizeEvent, hdata, process_event_data, sizeGate, hbig, Except.map]
  · intro ev s validate hdata hsmall
    have : ¬(validate = true ∧ MAX_DATA_SIZE < utf8Len s) := by
      rintro ⟨-, h⟩; omega
    simp [normalizeEvent, hdata, process_event_data, sizeGate, this, Except.map]

/-- Witness for C4: the oversized payload of 1,048,577 bytes fails closed /
    passes open, and a one-byte payload never yields TooLarge. -/
theorem claim_C4_witness :
    (evBig.data = .text bigPayload ∧ MAX_DATA_SIZE < utf8Len bigPayload ∧
      (normalizeEvent evBig true = .error .tooLarge ∧
        ∃ r, normalizeEvent evBig false = .ok r ∧ r.data = some bigPayload)) ∧
    (evSmall.data = .text (pyOf "x") ∧ utf8Len (pyOf "x") ≤ MAX_DATA_SIZE ∧
      normalizeEvent evSmall true ≠ .error .tooLarge) := by
  have hbig : MAX_DATA_SIZE < utf8Len bigPayload := by
    rw [bigPayload, utf8Len_replicate]; norm_num [cpLen, MAX_DATA_SIZE]
  have hsmall : utf8Len (pyOf "x") ≤ MAX_DATA_SIZE := by decide
  exact ⟨⟨rfl, hbig, claim_C4.1 evBig bigPayload rfl hbig⟩,
         ⟨rfl, hsmall, claim_C4.2 evSmall (pyOf "x") true rfl hsmall⟩⟩

/-- Claim C9: every record that normalization accepts has a non-empty
    event type and stream name (the "unknown" default is substituted both
    for an absent source field and for an empty string), so the store's
    length-positive CHECK constraints cannot be violated. -/
theorem claim_C9 (ev : RawEvent) (validate : Bool) (r : SQLiteEvent)
    (h : normalizeEvent ev validate = .ok r) :
    (0 < r.type_.length ∧ 0 < r.stream_name.length) ∧
    ((ev.type_ = none ∨ ev.type_ = some []) → r.type_ = unknownStr) ∧
    ((ev.stream_name = none ∨ ev.stream_name = some []) → r.stream_name = unknownStr) := by
  rcases hp : process_event_data ev.data validate with e | d
  · rw [normalizeEvent, hp] at h; exact absurd h (by simp [Except.map])
  · rw [normalizeEvent, hp] at h
    simp only [Except.map, Except.ok.injEq] at h
    subst h
    refine ⟨⟨?_, ?_⟩, ?_, ?_⟩
    · rcases ev.type_ with - | s <;> simp [pyOrDefault, unknownStr, pyOf]
      split <;> simp_all [List.length_pos]
    · rcases ev.stream_name with - | s <;> simp [pyOrDefault, unknownStr, pyOf]
      split <;> simp_all [List.length_pos]
    · rintro (ht | ht) <;> simp [pyOrDefault, ht]
    · rintro (ht | ht) <;> simp [pyOrDefault, ht]

/-- Witness for C9 at a concrete event whose type and stream name are the
    empty string. -/
theorem claim_C9_witness :
    ∃ r, normalizeEvent evEmptyNames true = .ok r ∧
      ((0 < r.type_.length ∧ 0 < r.stream_name.length) ∧
        ((evEmptyNames.type_ = none ∨ evEmptyNames.type_ = some []) → r.type_ = unknownStr) ∧
        ((evEmptyNames.stream_name = none ∨ evEmptyNames.stream_name = some []) →
          r.stream_name = unknownStr)) :=
  ⟨_, rfl, claim_C9 evEmptyNames true _ rfl⟩

/-- Claim C10: close() is idempotent — the connection handle is cleared even
    when a driver error interrupts the close sequence, and a second close on
    the closed store is a no-op that performs no commit or metadata write
    (and, being total, raises nothing). -/
theorem claim_C10 (st : EventStore) (now : Int) (failAfter : Option Nat) :
    (closeStore st now failAfter).store.connection = none ∧
    ∀ (now2 : Int) (fa2 : Option Nat),
      closeStore (closeStore st now failAfter).store now2 fa2 =
        ⟨(closeStore st now failAfter).store, [], none⟩ := by
  cases h : st.connection <;> simp [closeStore, h]

/-- Claim C8: a run over an empty source reports zero total events and zero
    events per second, for every elapsed duration including zero (the
    division is guarded). -/
theorem claim_C8 (batch_size commit_frequency : Nat) (validate : Bool) (duration : ℚ) :
    ∃ s, convert_events batch_size commit_frequency validate [] duration = some s ∧
      s.store_stats.total_events = 0 ∧ s.events_per_second = 0 := by
  refine ⟨_, rfl, ?_, ?_⟩ <;>
    simp [convert_events, convertLoop, freshStore, get_stats]

/-- The seven metadata key names are pairwise distinct. -/
theorem metaKeyName_inj : ∀ a b : MetaKey, metaKeyName a = metaKeyName b → a = b := by
  decide

/-- Every attribute is visited by the cleaning loop. -/
theorem mem_metaKeyOrder (k : MetaKey) : k ∈ metaKeyOrder := by
  cases k <;> decide

/-- Membership in the cleaned metadata characterized per attribute. -/
theorem mem_cleanMetadata (m : RawMeta) (k : MetaKey) (v : PyVal) :
    (PyKey.kStr (metaKeyName k), v) ∈ cleanMetadata m ↔
      ∃ mv, getMeta m k = some mv ∧ v = cleanVal mv := by
  constructor
  · intro h
    rcases List.mem_filterMap.1 h with ⟨k2, -, hmap⟩
    rcases Option.map_eq_some.1 hmap with ⟨mv, hget, heq⟩
    have hfst := congrArg Prod.fst heq
    have hname : metaKeyName k2 = metaKeyName k := by simpa using hfst
    have hk : k2 = k := metaKeyName_inj k2 k hname
    subst hk
    exact ⟨mv, hget, by simpa using (congrArg Prod.snd heq).symm⟩
  · rintro ⟨mv, hget, rfl⟩
    exact List.mem_filterMap.2 ⟨k, mem_metaKeyOrder k, by simp [hget]⟩

/-- A serialized mapping is accepted by the serializer when every value is. -/
theorem serializableM_of_vals :
    ∀ l : List (PyKey × PyVal), (∀ p ∈ l, serializable p.2 = true) →
      serializableM l = true
  | [], _ => rfl
  | (k, v) :: rest, h => by
    have hv : serializable v = true := h (k, v) (by simp)
    have hr := serializableM_of_vals rest (fun p hp => h p (by simp [hp]))
    simp [serializableM, hv, hr]

/-- Claim C2: the cleaned source metadata contains exactly the positioning
    attributes whose value is present (absent attributes are omitted),
    datetime-valued attributes appear as integer Unix seconds, and the final
    `json.dumps` always succeeds. -/
theorem claim_C2 (m : RawMeta) :
    (∀ k : MetaKey,
      PyKey.kStr (metaKeyName k) ∈ (cleanMetadata m).map Prod.fst ↔
        getMeta m k ≠ none) ∧
    (∀ (k : MetaKey) (ts : Int), getMeta m k = some (.mDatetime ts) →
      (PyKey.kStr (metaKeyName k), PyVal.pyInt ts) ∈ cleanMetadata m) ∧
    dumps (.pyDict (cleanMetadata m)) = some (serialize_metadata m) := by
  refine ⟨?_, ?_, ?_⟩
  · intro k
    constructor
    · intro h
      rcases List.mem_map.1 h with ⟨⟨k1, v⟩, hmem, hfst⟩
      simp only at hfst
      subst hfst
      rcases (mem_cleanMetadata m k v).1 hmem with ⟨mv, hget, -⟩
      simp [hget]
    · intro h
      rcases Option.ne_none_iff_exists.1 h with ⟨mv, hget⟩
      exact List.mem_map.2 ⟨(PyKey.kStr (metaKeyName k), cleanVal mv),
        (mem_cleanMetadata m k (cleanVal mv)).2 ⟨mv, hget.symm, rfl⟩, rfl⟩
  · intro k ts hget
    exact (mem_cleanMetadata m k (PyVal.pyInt ts)).2 ⟨.mDatetime ts, hget, rfl⟩
  · have hser : serializable (.pyDict (cleanMetadata m)) = true := by
      rw [serializable]
      refine serializableM_of_vals _ ?_
      rintro ⟨k1, v⟩ hmem
      rcases List.mem_filterMap.1 hmem with ⟨k2, -, hmap⟩
      rcases Option.map_eq_some.1 hmap with ⟨mv, -, heq⟩
      have hv : v = cleanVal mv := by
        have := congrArg Prod.snd heq
        simpa using this.symm
      subst hv
      cases mv <;> rfl
    simp [dumps, hser, serialize_metadata]

/-- Witness for C2 at a concrete metadata record with a datetime-valued
    `created`, a present `stream_position`, and the rest absent. -/
theorem claim_C2_witness :
    getMeta { created := some (.mDatetime 1672574400),
              stream_position := some (.mInt 7) } MetaKey.created
        = some (.mDatetime 1672574400) ∧
    (PyKey.kStr (metaKeyName MetaKey.created), PyVal.pyInt 1672574400) ∈
      cleanMetadata { created := some (.mDatetime 1672574400),
                      stream_position := some (.mInt 7) } :=
  ⟨rfl, (claim_C2 _).2.1 MetaKey.created 1672574400 rfl⟩

/-- Effect of one non-empty batch write on an open store: the counters
    advance, the configuration is untouched, the rows are upserted, and the
    commit flag is exactly the modular test on the bumped batch counter. -/
theorem save_events_batch_open (st : EventStore) (c : ConnState)
    (b : List SQLiteEvent) (hc : st.connection = some c) (hb : b ≠ []) :
    (save_events_batch st b).1.commit_frequency = st.commit_frequency ∧
    (save_events_batch st b).1.batches_processed = st.batches_processed + 1 ∧
    (save_events_batch st b).1.events_processed = st.events_processed + b.length ∧
    (save_events_batch st b).2 =
      decide ((st.batches_processed + 1) % st.commit_frequency = 0) ∧
    ∃ c1, (save_events_batch st b).1.connection = some c1 ∧
      c1.events = upsertMany c.events b := by
  by_cases hmod : (st.batches_processed + 1) % st.commit_frequency = 0 <;>
    simp [save_events_batch, hc, hb, hmod, commitConn]

/-- The trace of commit flags, generalized over the starting batch counter. -/
theorem commitFlags_eq (N : Nat) :
    ∀ (bs : List (List SQLiteEvent)) (st : EventStore) (c : ConnState),
      st.connection = some c → st.commit_frequency = N → (∀ b ∈ bs, b ≠ []) →
      commitFlags st bs = (List.range bs.length).map fun i =>
        decide ((st.batches_processed + i + 1) % N = 0)
  | [], _, _, _, _, _ => by simp [commitFlags]
  | b :: bs, st, c, hc, hN, hne => by
    obtain ⟨hfreq, hbp, -, hflag, c1, hconn1, -⟩ :=
      save_events_batch_open st c b hc (hne b (by simp))
    have ih := commitFlags_eq N bs (save_events_batch st b).1 c1 hconn1
      (hfreq.trans hN) (fun x hx => hne x (by simp [hx]))
    rw [commitFlags]
    rw [ih, hbp, List.length_cons, List.range_succ_eq_map, List.map_cons,
      List.map_map, hflag, hN]
    refine congrArg₂ _ (by simp) (List.map_congr_left ?_)
    intro i _hi
    simp [Function.comp]
    constructor <;> intro h <;> (refine Eq.trans ?_ h; congr 1; omega)

/-- Claim C3: with commit frequency N, a run of non-empty batch writes on a
    fresh counter issues a durable commit exactly on the batches whose
    1-indexed position is a multiple of N. -/
theorem claim_C3 (N : Nat) (hN : 0 < N) (st : EventStore) (c : ConnState)
    (hconn : st.connection = some c) (hfreq : st.commit_frequency = N)
    (hstart : st.batches_processed = 0)
    (bs : List (List SQLiteEvent)) (hne : ∀ b ∈ bs, b ≠ []) :
    commitFlags st bs = (List.range bs.length).map fun i => decide (N ∣ (i + 1)) := by
  rw [commitFlags_eq N bs st c hconn hfreq hne, hstart]
  refine List.map_congr_left fun i _hi => ?_
  simp only [Nat.zero_add]
  exact decide_eq_decide.2 Nat.dvd_iff_mod_eq_zero.symm

/-- Witness for C3: four one-row batches at commit frequency 2 commit on
    batches 2 and 4 only. -/
theorem claim_C3_witness :
    0 < 2 ∧ (freshStore 2).connection = some {} ∧
    (freshStore 2).commit_frequency = 2 ∧ (freshStore 2).batches_processed = 0 ∧
    (∀ b ∈ [[rowA], [rowA], [rowA], [rowA]], b ≠ []) ∧
    commitFlags (freshStore 2) [[rowA], [rowA], [rowA], [rowA]] =
      (List.range 4).map fun i => decide (2 ∣ (i + 1)) :=
  ⟨by decide, rfl, rfl, rfl, by decide,
    claim_C3 2 (by decide) (freshStore 2) {} rfl rfl rfl _ (by decide)⟩

/-- Rows with the replaced id are all deleted by the conflict handling. -/
theorem filter_removeId (i : PyStr) :
    ∀ tbl : List SQLiteEvent,
      (removeId i tbl).filter (fun r => decide (r.id = i)) = []
  | [] => rfl
  | r :: rs => by
    by_cases h : r.id = i <;>
      simp [removeId, h, List.filter, filter_removeId i rs]

/-- After an upsert, the rows carrying the written id are exactly the new row. -/
theorem filter_upsertRow (tbl : List SQLiteEvent) (r : SQLiteEvent) :
    (upsertRow tbl r).filter (fun x => decide (x.id = r.id)) = [r] := by
  simp [upsertRow, List.filter_append, filter_removeId, List.filter]

/-- Claim C6: writing a record with the same id twice through batch writes
    leaves exactly one row for that id, carrying the content of the later
    write. -/
theorem claim_C6 (st : EventStore) (c : ConnState) (hconn : st.connection = some c)
    (r1 r2 : SQLiteEvent) (hid : r1.id = r2.id) :
    ∃ c2, (save_events_batch (save_events_batch st [r1]).1 [r2]).1.connection = some c2 ∧
      c2.events.filter (fun x => decide (x.id = r1.id)) = [r2] ∧
      (c2.events.filter (fun x => decide (x.id = r1.id))).length = 1 := by
  obtain ⟨-, -, -, -, c1, hconn1, hev1⟩ :=
    save_events_batch_open st c [r1] hconn (by simp)
  obtain ⟨-, -, -, -, c2, hconn2, hev2⟩ :=
    save_events_batch_open (save_events_batch st [r1]).1 c1 [r2] hconn1 (by simp)
  refine ⟨c2, hconn2, ?_, ?_⟩ <;>
    rw [hev2, hev1, hid] <;>
    simp [upsertMany, filter_upsertRow]

/-- Witness for C6 on a fresh store with two concrete same-id rows. -/
theorem claim_C6_witness :
    (freshStore 5).connection = some {} ∧ rowA.id = rowA2.id ∧
    ∃ c2, (save_events_batch (save_events_batch (freshStore 5) [rowA]).1
        [rowA2]).1.connection = some c2 ∧
      c2.events.filter (fun x => decide (x.id = rowA.id)) = [rowA2] ∧
      (c2.events.filter (fun x => decide (x.id = rowA.id))).length = 1 :=
  ⟨rfl, rfl, claim_C6 (freshStore 5) {} rfl rowA rowA2 rfl⟩

/-- The ingest loop refined to the specified batch partition, generalized
    over the in-flight buffer and save log: when the source iterates to
    exhaustion, the loop completes and its save calls are exactly the
    full chunks followed by one flush of the non-empty remainder. -/
theorem convertLoop_noRaise (bs : Nat) (hbs : 0 < bs) (v : Bool) :
    ∀ (src : List PullStep) (acc : List SQLiteEvent) (t k : Nat)
      (st : EventStore) (log : List (List SQLiteEvent)),
      noRaise src = true → acc.length < bs →
      (convertLoop bs v src acc t k st log).exit = .completed ∧
      (convertLoop bs v src acc t k st log).saves =
        log ++ batchesOf bs acc (okRows v src)
  | [], acc, t, k, st, log, _, _ => by
    by_cases h : acc = [] <;> simp [convertLoop, batchesOf, h]
  | .raiseRead :: src, _, _, _, _, _, hnr, _ => by
    simp [noRaise] at hnr
  | .yield e :: src, acc, t, k, st, log, hnr, hacc => by
    have hnr2 : noRaise src = true := by
      simp [noRaise] at hnr ⊢; exact hnr
    rcases hn : normalizeEvent e v with err | row
    · have ih := convertLoop_noRaise bs hbs v src acc t (k + 1) st log hnr2 hacc
      simpa [convertLoop, hn, okRows, Except.toOption] using ih
    · by_cases hfull : bs ≤ acc.length + 1
      · have ih := convertLoop_noRaise bs hbs v src [] (t + (acc ++ [row]).length) k
          (save_events_batch st (acc ++ [row])).1 (log ++ [acc ++ [row]]) hnr2
          (by simpa using hbs)
        have heq : convertLoop bs v (.yield e :: src) acc t k st log =
            convertLoop bs v src [] (t + (acc ++ [row]).length) k
              (save_events_batch st (acc ++ [row])).1 (log ++ [acc ++ [row]]) := by
          simp [convertLoop, hn, hfull]
        rw [heq, ih.2]
        refine ⟨ih.1, ?_⟩
        simp [okRows, hn, Except.toOption, batchesOf, hfull]
      · have hlt : (acc ++ [row]).length < bs := by simp; omega
        have ih := convertLoop_noRaise bs hbs v src (acc ++ [row]) t k st log hnr2 hlt
        have heq : convertLoop bs v (.yield e :: src) acc t k st log =
            convertLoop bs v src (acc ++ [row]) t k st log := by
          simp [convertLoop, hn, hfull]
        rw [heq, ih.2]
        refine ⟨ih.1, ?_⟩
        simp [okRows, hn, Except.toOption, batchesOf, hfull]

/-- Claim C1 (amended): when the event loop exits normally (source
    exhausted), the save calls are exactly the full batches followed by at
    most one flush of the non-empty remainder — the remaining buffer is
    drained exactly once. The original claim extended this to exceptional
    exits, which `claim_C1_counterexample` refutes. -/
theorem claim_C1 (batch_size : Nat) (hbs : 0 < batch_size) (validate : Bool)
    (src : List PullStep) (hsrc : noRaise src = true) (st : EventStore) :
    (convertLoop batch_size validate src [] 0 0 st []).exit = .completed ∧
    (convertLoop batch_size validate src [] 0 0 st []).saves =
      batchesOf batch_size [] (okRows validate src) := by
  have h := convertLoop_noRaise batch_size hbs validate src [] 0 0 st []
    hsrc (by simpa using hbs)
  simpa using h

/-- Counterexample to claim C1 as stated: with batch size 2, one good event
    followed by an iterator exception leaves a non-empty buffer at loop exit,
    no save call is ever made (the buffered event is not flushed), and the
    store is untouched — though the read handle is stopped. -/
theorem claim_C1_counterexample :
    (convertLoop 2 true [.yield evA, .raiseRead] [] 0 0 (freshStore 5) []).exit
        = .raised ∧
    (convertLoop 2 true [.yield evA, .raiseRead] [] 0 0 (freshStore 5) []).buffered
        ≠ [] ∧
    (convertLoop 2 true [.yield evA, .raiseRead] [] 0 0 (freshStore 5) []).saves
        = [] ∧
    (convertLoop 2 true [.yield evA, .raiseRead] [] 0 0 (freshStore 5) []).store
        = freshStore 5 ∧
    (convertLoop 2 true [.yield evA, .raiseRead] [] 0 0 (freshStore 5) []).stopped
        = true := by
  refine ⟨rfl, ?_, rfl, by decide, rfl⟩
  decide

/-- Witness for the amended C1: three good events at batch size 2 complete
    and produce one full batch plus one remainder flush. -/
theorem claim_C1_witness :
    0 < 2 ∧ noRaise [PullStep.yield evA, .yield evA, .yield evA] = true ∧
    ((convertLoop 2 true [.yield evA, .yield evA, .yield evA] [] 0 0
        (freshStore 5) []).exit = .completed ∧
      (convertLoop 2 true [.yield evA, .yield evA, .yield evA] [] 0 0
        (freshStore 5) []).saves =
        batchesOf 2 [] (okRows true [.yield evA, .yield evA, .yield evA])) :=
  ⟨by decide, rfl,
    claim_C1 2 (by decide) true [.yield evA, .yield evA, .yield evA] rfl (freshStore 5)⟩

/-- Digit rendering is fuel-irrelevant once the fuel exceeds the number. -/
theorem natDigsAux_congr :
    ∀ (f1 : Nat) (f2 n : Nat), n < f1 → n < f2 → natDigsAux f1 n = natDigsAux f2 n
  | f1 + 1, f2 + 1, n, h1, h2 => by
    by_cases h : n < 10
    · simp [natDigsAux, h]
    · have hd : n / 10 < n := Nat.div_lt_self (by omega) (by omega)
      have := natDigsAux_congr f1 f2 (n / 10) (by omega) (by omega)
      simp [natDigsAux, h, this]

/-- Unfolding equation for `natDigs` as if it recursed directly. -/
theorem natDigs_unfold (n : Nat) :
    natDigs n = if n < 10 then [48 + n] else natDigs (n / 10) ++ [48 + n % 10] := by
  by_cases h : n < 10
  · simp [natDigs, natDigsAux, h]
  · have hd : n / 10 < n := Nat.div_lt_self (by omega) (by omega)
    have hc := natDigsAux_congr n (n / 10 + 1) (n / 10) (by omega) (by omega)
    simp [natDigs, natDigsAux, h, hc]

/-- Every rendered digit is an ASCII decimal digit. -/
theorem natDigs_digit (n : Nat) : ∀ c ∈ natDigs n, 48 ≤ c ∧ c ≤ 57 := by
  induction n using Nat.strong_induction_on with
  | _ n ih =>
    rw [natDigs_unfold]
    by_cases h : n < 10
    · intro c hc
      simp [h] at hc
      omega
    · have hd : n / 10 < n := Nat.div_lt_self (by omega) (by omega)
      simp only [h, if_false, List.mem_append, List.mem_singleton]
      rintro c (hc | rfl)
      · exact ih (n / 10) hd c hc
      · have := Nat.mod_lt n (show 0 < 10 by omega)
        omega

/-- A number always renders at least one digit. -/
theorem natDigs_ne_nil (n : Nat) : natDigs n ≠ [] := by
  rw [natDigs_unfold]
  by_cases h : n < 10 <;> simp [h]

/-- Peeling the last digit off a digit-run value. -/
theorem digsVal_append (ds : List Nat) (d : Nat) :
    digsVal (ds ++ [d]) = digsVal ds * 10 + (d - 48) := by
  simp [digsVal, List.foldl_append]

/-- The digit run of a number evaluates back to the number. -/
theorem digsVal_natDigs (n : Nat) : digsVal (natDigs n) = n := by
  induction n using Nat.strong_induction_on with
  | _ n ih =>
    rw [natDigs_unfold]
    by_cases h : n < 10
    · simp [h, digsVal]
    · have hd : n / 10 < n := Nat.div_lt_self (by omega) (by omega)
      rw [if_neg h, digsVal_append, ih (n / 10) hd]
      have := Nat.mod_lt n (show 0 < 10 by omega)
      omega

/-- The digit scanner splits a rendered digit run exactly at its end. -/
theorem takeDigs_append (ds : List Nat) (rest : List Nat)
    (hds : ∀ c ∈ ds, 48 ≤ c ∧ c ≤ 57) (hrest : notDigStart rest = true) :
    takeDigs (ds ++ rest) = (ds, rest) := by
  induction ds with
  | nil =>
    cases rest with
    | nil => rfl
    | cons c t =>
      simp only [notDigStart, Bool.not_eq_eq_eq_not, Bool.not_true] at hrest
      simp [takeDigs, hrest]
  | cons d ds ih =>
    have hd : isDigCp d = true := by
      have := hds d (by simp)
      simp [isDigCp]; omega
    have := ih (fun c hc => hds c (by simp [hc]))
    simp [takeDigs, hd, this]

/-- The integer scanner inverts the integer renderer, up to a non-digit
    delimiter. -/
theorem parseIntCp_intRepr (n : Int) (rest : List Nat)
    (hrest : notDigStart rest = true) :
    parseIntCp (intRepr n ++ rest) = some (n, rest) := by
  by_cases hneg : n < 0
  · have htd := takeDigs_append (natDigs n.natAbs) rest (natDigs_digit _) hrest
    have hne := natDigs_ne_nil n.natAbs
    rw [intRepr, if_pos hneg, List.cons_append]
    simp [parseIntCp, htd, hne, digsVal_natDigs]
    rw [abs_of_neg hneg, neg_neg]
  · obtain ⟨d, ds, hcons⟩ := List.exists_cons_of_ne_nil (natDigs_ne_nil n.toNat)
    have hd := natDigs_digit n.toNat d (by rw [hcons]; simp)
    have htd := takeDigs_append (natDigs n.toNat) rest (natDigs_digit _) hrest
    have hne := natDigs_ne_nil n.toNat
    have hd45 : ¬(d = 45) := by omega
    have hback : d :: (ds ++ rest) = natDigs n.toNat ++ rest := by
      rw [hcons, List.cons_append]
    rw [intRepr, if_neg hneg, hcons, List.cons_append]
    simp only [parseIntCp]
    rw [if_neg hd45, hback, htd]
    simp [hne, digsVal_natDigs]
    omega

/-- `skipWs` is the identity on input starting with a non-whitespace byte. -/
theorem skipWs_cons (c : Nat) (t : List Nat) (h : isWsCp c = false) :
    skipWs (c :: t) = c :: t := by
  simp [skipWs, h]

/-- The value parser ignores one leading space. -/
theorem parseVal_space (fuel : Nat) (cs : List Nat) :
    parseVal fuel (32 :: cs) = parseVal fuel cs := by
  cases fuel with
  | zero => rfl
  | succ f => simp [parseVal, skipWs, isWsCp]

/-- The element parser ignores one leading space. -/
theorem parseElems_space (fuel : Nat) (cs : List Nat) (acc : List PyVal) :
    parseElems fuel (32 :: cs) acc = parseElems fuel cs acc := by
  cases fuel with
  | zero => rfl
  | succ f => simp [parseElems, parseVal_space]

/-- The member parser ignores one leading space. -/
theorem parseMembers_space (fuel : Nat) (cs : List Nat) (acc : List (PyKey × PyVal)) :
    parseMembers fuel (32 :: cs) acc = parseMembers fuel cs acc := by
  cases fuel with
  | zero => rfl
  | succ f => simp [parseMembers, skipWs, isWsCp]

/-- Hex digits round-trip. -/
theorem hexVal_hexDig (d : Nat) (h : d < 16) : hexVal (hexDig d) = some d := by
  interval_cases d <;> rfl

/-- A four-digit hex escape body round-trips for any code unit. -/
theorem hex4Val_hex4 (n : Nat) (h : n < 0x10000) :
    hex4Val (hexDig (n / 4096 % 16)) (hexDig (n / 256 % 16))
      (hexDig (n / 16 % 16)) (hexDig (n % 16)) = some n := by
  simp only [hex4Val, hexVal_hexDig _ (show n / 4096 % 16 < 16 by omega),
    hexVal_hexDig _ (show n / 256 % 16 < 16 by omega),
    hexVal_hexDig _ (show n / 16 % 16 < 16 by omega),
    hexVal_hexDig _ (show n % 16 < 16 by omega), Option.some.injEq]
  omega

/-- Decoding one non-surrogate `\uXXXX` escape yields its code point. -/
theorem escStep_uEsc (n : Nat) (hn : n < 0x10000)
    (hns : ¬(0xD800 ≤ n ∧ n < 0xDC00)) (rest : List Nat) :
    escStep (117 :: (hex4 n ++ rest)) = some (n, rest) := by
  simp [escStep, escUni, hex4, hex4Val_hex4 n hn, hns]

/-- Decoding a surrogate-pair escape recombines the original code point. -/
theorem escStep_uEscPair (c : Nat) (hc1 : 0x10000 ≤ c) (hc2 : c < 0x110000)
    (rest : List Nat) :
    escStep (117 :: (hex4 (0xD800 + (c - 0x10000) / 0x400) ++
        (uEsc (0xDC00 + (c - 0x10000) % 0x400) ++ rest))) = some (c, rest) := by
  have h1 : 0xD800 + (c - 0x10000) / 0x400 < 0x10000 := by omega
  have h2 : 0xDC00 + (c - 0x10000) % 0x400 < 0x10000 := by omega
  have h3 : 0xD800 ≤ 0xD800 + (c - 0x10000) / 0x400 ∧
      0xD800 + (c - 0x10000) / 0x400 < 0xDC00 := by omega
  have h4 : 0xDC00 ≤ 0xDC00 + (c - 0x10000) % 0x400 ∧
      0xDC00 + (c - 0x10000) % 0x400 < 0xE000 := by omega
  rw [escStep]
  rw [if_pos rfl]
  rw [show (hex4 (0xD800 + (c - 0x10000) / 0x400) ++
      (uEsc (0xDC00 + (c - 0x10000) % 0x400) ++ rest)) =
    hexDig ((0xD800 + (c - 0x10000) / 0x400) / 4096 % 16) ::
    hexDig ((0xD800 + (c - 0x10000) / 0x400) / 256 % 16) ::
    hexDig ((0xD800 + (c - 0x10000) / 0x400) / 16 % 16) ::
    hexDig ((0xD800 + (c - 0x10000) / 0x400) % 16) ::
    (uEsc (0xDC00 + (c - 0x10000) % 0x400) ++ rest) from rfl]
  rw [escUni, hex4Val_hex4 _ h1]
  simp only [if_pos h3]
  rw [show (uEsc (0xDC00 + (c - 0x10000) % 0x400) ++ rest) =
    92 :: 117 ::
    hexDig ((0xDC00 + (c - 0x10000) % 0x400) / 4096 % 16) ::
    hexDig ((0xDC00 + (c - 0x10000) % 0x400) / 256 % 16) ::
    hexDig ((0xDC00 + (c - 0x10000) % 0x400) / 16 % 16) ::
    hexDig ((0xDC00 + (c - 0x10000) % 0x400) % 16) :: rest from rfl]
  rw [escSurr, hex4Val_hex4 _ h2]
  simp only [if_pos h4, Option.some.injEq, Prod.mk.injEq]
  refine ⟨?_, trivial⟩
  omega

/-- Unfolding of the scanner at a closing quote. -/
theorem parseStrAux_quote (fuel : Nat) (acc rest : List Nat) :
    parseStrAux (fuel + 1) acc (34 :: rest) = some (acc.reverse, rest) := by
  simp [parseStrAux]

/-- Unfolding of the scanner at a backslash: delegate to the escape scan. -/
theorem parseStrAux_backslash (fuel : Nat) (acc rest : List Nat) :
    parseStrAux (fuel + 1) acc (92 :: rest) =
      match escStep rest with
      | none => none
      | some (u, rest2) => parseStrAux fuel (u :: acc) rest2 := by
  simp only [parseStrAux]
  norm_num

/-- Unfolding of the scanner at a literal (non-quote, non-backslash,
    non-control) character. -/
theorem parseStrAux_lit (fuel : Nat) (c : Nat) (h1 : ¬(c = 34)) (h2 : ¬(c = 92))
    (h3 : ¬(c < 32)) (acc rest : List Nat) :
    parseStrAux (fuel + 1) acc (c :: rest) = parseStrAux fuel (c :: acc) rest := by
  simp only [parseStrAux]
  rw [if_neg h1, if_neg h2, if_neg h3]

/-- One scanner step over the escape of a well-formed code point pushes
    that point and consumes one unit of fuel. -/
theorem parseStrAux_escCp (fuel : Nat) (c : Nat)
    (hsc : c < 0xD800 ∨ (0xDFFF < c ∧ c < 0x110000)) (acc rest : List Nat) :
    parseStrAux (fuel + 1) acc (escCp c ++ rest) = parseStrAux fuel (c :: acc) rest := by
  by_cases h34 : c = 0x22
  · subst h34; simp [escCp, parseStrAux, escStep, unescCp]
  by_cases h92 : c = 0x5C
  · subst h92; simp [escCp, parseStrAux, escStep, unescCp]
  by_cases h8 : c = 8
  · subst h8; simp [escCp, parseStrAux, escStep, unescCp]
  by_cases h9 : c = 9
  · subst h9; simp [escCp, parseStrAux, escStep, unescCp]
  by_cases h10 : c = 10
  · subst h10; simp [escCp, parseStrAux, escStep, unescCp]
  by_cases h12 : c = 12
  · subst h12; simp [escCp, parseStrAux, escStep, unescCp]
  by_cases h13 : c = 13
  · subst h13; simp [escCp, parseStrAux, escStep, unescCp]
  rw [escCp, if_neg h34, if_neg h92, if_neg h8, if_neg h9, if_neg h10,
    if_neg h12, if_neg h13]
  by_cases hctl : c < 0x20 ∨ 0x7E < c
  · rw [if_pos hctl]
    by_cases hbmp : c < 0x10000
    · rw [if_pos hbmp]
      rw [show uEsc c ++ rest = 92 :: (117 :: (hex4 c ++ rest)) by simp [uEsc]]
      rw [parseStrAux_backslash, escStep_uEsc c hbmp (by omega) rest]
    · rw [if_neg hbmp]
      have hc2 : c < 0x110000 := by
        rcases hsc with h | h
        · omega
        · exact h.2
      rw [show (uEsc (0xD800 + (c - 0x10000) / 0x400) ++
            uEsc (0xDC00 + (c - 0x10000) % 0x400)) ++ rest =
          92 :: (117 :: (hex4 (0xD800 + (c - 0x10000) / 0x400) ++
            (uEsc (0xDC00 + (c - 0x10000) % 0x400) ++ rest))) by simp [uEsc]]
      rw [parseStrAux_backslash, escStep_uEscPair c (by omega) hc2 rest]
  · rw [if_neg hctl]
    push_neg at hctl
    rw [List.singleton_append]
    exact parseStrAux_lit fuel c h34 h92 (by omega) acc rest

/-- The string-body scanner inverts the string-body renderer, given fuel
    beyond the number of source code points. -/
theorem parseStrAux_body :
    ∀ (s : PyStr) (fuel : Nat), wfStr s = true → s.length < fuel →
      ∀ (acc rest : List Nat),
        parseStrAux fuel acc (s.flatMap escCp ++ (34 :: rest)) =
          some (acc.reverse ++ s, rest)
  | [], fuel, _, hf, acc, rest => by
    cases fuel with
    | zero => omega
    | succ f => simp [parseStrAux]
  | c :: s, fuel, hwf, hf, acc, rest => by
    cases fuel with
    | zero => omega
    | succ f =>
      have hc : c < 0xD800 ∨ (0xDFFF < c ∧ c < 0x110000) := by
        have := (List.all_eq_true.1 hwf) c (by simp)
        simpa using this
      have hs : wfStr s = true :=
        List.all_eq_true.2 fun x hx => (List.all_eq_true.1 hwf) x (by simp [hx])
      rw [List.flatMap_cons, List.append_assoc, parseStrAux_escCp f c hc,
        parseStrAux_body s f hs (by simpa using hf)]
      simp

/-- Every code point escapes to at least one output unit. -/
theorem escCp_length_pos (c : Nat) : 0 < (escCp c).length := by
  rw [escCp]
  split_ifs <;> simp [uEsc, hex4]

/-- The escaped body is at least as long as the source string. -/
theorem length_le_flatMap_escCp :
    ∀ s : PyStr, s.length ≤ (s.flatMap escCp).length
  | [] => by simp
  | c :: s => by
    have h1 := escCp_length_pos c
    have h2 := length_le_flatMap_escCp s
    simp only [List.flatMap_cons, List.length_append, List.length_cons]
    omega

/-- Every value costs at least one unit of parser fuel. -/
theorem cnt_pos (v : PyVal) : 0 < cnt v := by
  cases v <;> simp [cnt]

/-- A non-empty element list costs at least one unit of parser fuel. -/
theorem cntL_pos (x : PyVal) (xs : List PyVal) : 0 < cntL (x :: xs) := by
  simp [cntL]

/-- A non-empty member list costs at least one unit of parser fuel. -/
theorem cntM_pos (m : PyKey × PyVal) (ms : List (PyKey × PyVal)) :
    0 < cntM (m :: ms) := by
  cases m
  simp [cntM]

mutual

/-- The fuel cost of a value is bounded by its rendered length plus one. -/
theorem cnt_le_render : ∀ v : PyVal, cnt v ≤ (render v).length + 1
  | .pyNone => by simp [cnt, render, pyOf]
  | .pyBool b => by cases b <;> simp [cnt, render, pyOf]
  | .pyInt n => by simp [cnt]
  | .pyStr s => by simp [cnt]
  | .pyList xs => by
    have h := cntL_le_render xs
    simp only [cnt, render, List.length_cons, List.length_append]
    simp at h ⊢
    omega
  | .pyTuple xs => by
    have h := cntL_le_render xs
    simp only [cnt, render, List.length_cons, List.length_append]
    simp at h ⊢
    omega
  | .pyDict kvs => by
    have h := cntM_le_render kvs
    simp only [cnt, render, List.length_cons, List.length_append]
    simp at h ⊢
    omega
  | .pyObj => by simp [cnt, render]

/-- Element-list counterpart of `cnt_le_render`. -/
theorem cntL_le_render : ∀ l : List PyVal, cntL l ≤ (renderElems l).length + 2
  | [] => by simp [cntL, renderElems]
  | [x] => by
    have h := cnt_le_render x
    simp only [cntL, renderElems]
    omega
  | x :: y :: ys => by
    have h1 := cnt_le_render x
    have h2 := cntL_le_render (y :: ys)
    rw [cntL, renderElems]
    simp only [List.length_append, List.length_cons]
    omega

/-- Member-list counterpart of `cnt_le_render`. -/
theorem cntM_le_render : ∀ l : List (PyKey × PyVal), cntM l ≤ (renderMembers l).length + 2
  | [] => by simp [cntM, renderMembers]
  | [(k, v)] => by
    have h := cnt_le_render v
    simp only [cntM, renderMembers, List.length_append, List.length_cons]
    omega
  | (k, v) :: m :: ms => by
    have h1 := cnt_le_render v
    have h2 := cntM_le_render (m :: ms)
    rw [cntM, renderMembers]
    simp only [List.length_append, List.length_cons]
    omega

end

/-- Expecting a literal word over itself succeeds. -/
theorem dropLit_self : ∀ (p r : List Nat), dropLit p (p ++ r) = some r
  | [], r => rfl
  | c :: p, r => by simp [dropLit, dropLit_self p r]

/-- Controlled unfolding of the value parser once the whitespace-skipped
    input is exposed as a cons. -/
theorem parseVal_step (fuel : Nat) (cs : List Nat) (c : Nat) (t : List Nat)
    (h : skipWs cs = c :: t) :
    parseVal (fuel + 1) cs =
      (if c = 110 then (dropLit (pyOf "ull") t).map (fun r => (.pyNone, r))
       else if c = 116 then (dropLit (pyOf "rue") t).map (fun r => (.pyBool true, r))
       else if c = 102 then (dropLit (pyOf "alse") t).map (fun r => (.pyBool false, r))
       else if c = 34 then
         (parseStrAux (t.length + 1) [] t).map (fun p => (.pyStr p.1, p.2))
       else if c = 91 then
         match skipWs t with
         | [] => none
         | c2 :: r2 =>
           if c2 = 93 then some (.pyList [], r2) else parseElems fuel (c2 :: r2) []
       else if c = 123 then
         match skipWs t with
         | [] => none
         | c2 :: r2 =>
           if c2 = 125 then some (.pyDict [], r2) else parseMembers fuel (c2 :: r2) []
       else if c = 45 ∨ isDigCp c then
         (parseIntCp (c :: t)).map (fun p => (.pyInt p.1, p.2))
       else none) := by
  simp only [parseVal, h]

/-- The value parser reads back a rendered integer. -/
theorem parseVal_int (fuel : Nat) (n : Int) (rest : List Nat)
    (hrest : notDigStart rest = true) :
    parseVal (fuel + 1) (intRepr n ++ rest) = some (.pyInt n, rest) := by
  by_cases hneg : n < 0
  · rw [show intRepr n ++ rest = 45 :: (natDigs n.natAbs ++ rest) by
      rw [intRepr, if_pos hneg, List.cons_append]]
    rw [parseVal_step fuel _ 45 _ (skipWs_cons _ _ (by decide))]
    norm_num
    rw [show (45 : Nat) :: (natDigs n.natAbs ++ rest) = intRepr n ++ rest by
      rw [intRepr, if_pos hneg, List.cons_append]]
    rw [parseIntCp_intRepr n rest hrest]
  · obtain ⟨d, ds, hcons⟩ := List.exists_cons_of_ne_nil (natDigs_ne_nil n.toNat)
    have hd := natDigs_digit n.toNat d (by rw [hcons]; simp)
    have hrepr : intRepr n ++ rest = d :: (ds ++ rest) := by
      rw [intRepr, if_neg hneg, hcons, List.cons_append]
    rw [hrepr, parseVal_step fuel _ d _ (skipWs_cons _ _ (by simp [isWsCp]; omega))]
    rw [if_neg (by omega : ¬(d = 110)), if_neg (by omega : ¬(d = 116)),
      if_neg (by omega : ¬(d = 102)), if_neg (by omega : ¬(d = 34)),
      if_neg (by omega : ¬(d = 91)), if_neg (by omega : ¬(d = 123)),
      if_pos (Or.inr (by simp [isDigCp]; omega))]
    rw [show d :: (ds ++ rest) = intRepr n ++ rest from hrepr.symm]
    rw [parseIntCp_intRepr n rest hrest]
    rfl

/-- A well-formed value renders with a head that is neither whitespace nor
    a closing bracket or brace. -/
theorem render_head (v : PyVal) (hwf : wfVal v = true) :
    ∃ c t, render v = c :: t ∧ isWsCp c = false ∧ ¬(c = 93) ∧ ¬(c = 125) := by
  cases v with
  | pyNone => exact ⟨110, _, rfl, by decide, by decide, by decide⟩
  | pyBool b =>
    cases b
    · exact ⟨102, _, rfl, by decide, by decide, by decide⟩
    · exact ⟨116, _, rfl, by decide, by decide, by decide⟩
  | pyInt n =>
    by_cases hneg : n < 0
    · refine ⟨45, natDigs n.natAbs, ?_, by decide, by decide, by decide⟩
      rw [render, intRepr, if_pos hneg]
    · obtain ⟨d, ds, hcons⟩ := List.exists_cons_of_ne_nil (natDigs_ne_nil n.toNat)
      have hd := natDigs_digit n.toNat d (by rw [hcons]; simp)
      refine ⟨d, ds, ?_, by simp [isWsCp]; omega, by omega, by omega⟩
      rw [render, intRepr, if_neg hneg, hcons]
  | pyStr s => exact ⟨34, _, rfl, by decide, by decide, by decide⟩
  | pyList xs => exact ⟨91, _, rfl, by decide, by decide, by decide⟩
  | pyTuple xs => simp [wfVal] at hwf
  | pyDict kvs => exact ⟨123, _, rfl, by decide, by decide, by decide⟩
  | pyObj => simp [wfVal] at hwf

/-- A non-empty rendered element list has the head of its first element. -/
theorem renderElems_head (x : PyVal) (xs : List PyVal) (hwf : wfVal x = true) :
    ∃ c t, renderElems (x :: xs) = c :: t ∧ isWsCp c = false ∧
      ¬(c = 93) ∧ ¬(c = 125) := by
  obtain ⟨c, t, he, hws, h93, h125⟩ := render_head x hwf
  cases xs with
  | nil => exact ⟨c, t, he, hws, h93, h125⟩
  | cons y ys =>
    refine ⟨c, t ++ (44 :: 32 :: renderElems (y :: ys)), ?_, hws, h93, h125⟩
    rw [renderElems, he, List.cons_append]

/-- The value parser on an opening bracket with a non-empty body defers to
    the element parser. -/
theorem parseVal_bracket (fuel : Nat) (cs t : List Nat) (c2 : Nat) (r2 : List Nat)
    (h : skipWs cs = 91 :: t) (h2 : skipWs t = c2 :: r2) (h93 : ¬(c2 = 93)) :
    parseVal (fuel + 1) cs = parseElems fuel (c2 :: r2) [] := by
  rw [parseVal_step fuel cs 91 t h]
  norm_num
  rw [h2]
  show (if c2 = 93 then some (.pyList [], r2) else parseElems fuel (c2 :: r2) []) = _
  rw [if_neg h93]

/-- The value parser on an empty array literal. -/
theorem parseVal_listNil (fuel : Nat) (cs t r2 : List Nat)
    (h : skipWs cs = 91 :: t) (h2 : skipWs t = 93 :: r2) :
    parseVal (fuel + 1) cs = some (.pyList [], r2) := by
  rw [parseVal_step fuel cs 91 t h]
  norm_num
  rw [h2]
  show (if (93 : Nat) = 93 then some (PyVal.pyList [], r2)
    else parseElems fuel (93 :: r2) []) = _
  norm_num

/-- The value parser on an opening brace with a non-empty body defers to
    the member parser. -/
theorem parseVal_brace (fuel : Nat) (cs t : List Nat) (c2 : Nat) (r2 : List Nat)
    (h : skipWs cs = 123 :: t) (h2 : skipWs t = c2 :: r2) (h125 : ¬(c2 = 125)) :
    parseVal (fuel + 1) cs = parseMembers fuel (c2 :: r2) [] := by
  rw [parseVal_step fuel cs 123 t h]
  norm_num
  rw [h2]
  show (if c2 = 125 then some (.pyDict [], r2) else parseMembers fuel (c2 :: r2) []) = _
  rw [if_neg h125]

/-- The value parser on an empty object literal. -/
theorem parseVal_dictNil (fuel : Nat) (cs t r2 : List Nat)
    (h : skipWs cs = 123 :: t) (h2 : skipWs t = 125 :: r2) :
    parseVal (fuel + 1) cs = some (.pyDict [], r2) := by
  rw [parseVal_step fuel cs 123 t h]
  norm_num
  rw [h2]
  show (if (125 : Nat) = 125 then some (PyVal.pyDict [], r2)
    else parseMembers fuel (125 :: r2) []) = _
  norm_num

/-- Controlled unfolding of the element parser after its value succeeds. -/
theorem parseElems_step (fuel : Nat) (cs : List Nat) (acc : List PyVal)
    (v : PyVal) (r : List Nat) (h : parseVal fuel cs = some (v, r)) :
    parseElems (fuel + 1) cs acc =
      match skipWs r with
      | 44 :: r2 => parseElems fuel r2 (acc ++ [v])
      | 93 :: r2 => some (.pyList (acc ++ [v]), r2)
      | _ => none := by
  simp only [parseElems, h]

/-- Controlled unfolding of the member parser after key and value succeed. -/
theorem parseMembers_step (fuel : Nat) (cs t : List Nat)
    (acc : List (PyKey × PyVal)) (k : PyStr) (r r2 : List Nat) (v : PyVal)
    (r3 : List Nat) (h1 : skipWs cs = 34 :: t)
    (h2 : parseStrAux (t.length + 1) [] t = some (k, r))
    (h3 : skipWs r = 58 :: r2) (h4 : parseVal fuel r2 = some (v, r3)) :
    parseMembers (fuel + 1) cs acc =
      match skipWs r3 with
      | 44 :: r4 => parseMembers fuel r4 (acc ++ [(.kStr k, v)])
      | 125 :: r4 => some (.pyDict (acc ++ [(.kStr k, v)]), r4)
      | _ => none := by
  simp only [parseMembers, h1, h2, h3, h4]

/-- Round-trip of the renderer and parser at every level, by fuel induction:
    a well-formed value (and non-empty element or member list) parses back
    from its rendering, leaving exactly the trailing input. -/
theorem parse_render_all : ∀ fuel : Nat,
    (∀ (v : PyVal) (rest : List Nat), wfVal v = true → cnt v ≤ fuel →
      notDigStart rest = true →
      parseVal fuel (render v ++ rest) = some (v, rest)) ∧
    (∀ (l : List PyVal) (acc : List PyVal) (rest : List Nat), l ≠ [] →
      wfL l = true → cntL l ≤ fuel →
      parseElems fuel (renderElems l ++ (93 :: rest)) acc =
        some (.pyList (acc ++ l), rest)) ∧
    (∀ (l : List (PyKey × PyVal)) (acc : List (PyKey × PyVal))
        (rest : List Nat), l ≠ [] → wfM l = true → cntM l ≤ fuel →
      parseMembers fuel (renderMembers l ++ (125 :: rest)) acc =
        some (.pyDict (acc ++ l), rest)) := by
  intro fuel
  induction fuel with
  | zero =>
    refine ⟨?_, ?_, ?_⟩
    · intro v rest _ hcnt _
      exact absurd hcnt (by have := cnt_pos v; omega)
    · intro l acc rest hne _ hcnt
      obtain ⟨x, xs, rfl⟩ := List.exists_cons_of_ne_nil hne
      exact absurd hcnt (by have := cntL_pos x xs; omega)
    · intro l acc rest hne _ hcnt
      obtain ⟨m, ms, rfl⟩ := List.exists_cons_of_ne_nil hne
      exact absurd hcnt (by have := cntM_pos m ms; omega)
  | succ f ih =>
    obtain ⟨ih1, ih2, ih3⟩ := ih
    refine ⟨?_, ?_, ?_⟩
    · intro v rest hwf hcnt hrest
      cases v with
      | pyNone =>
        rw [show render PyVal.pyNone ++ rest = 110 :: ([117, 108, 108] ++ rest) from rfl]
        rw [parseVal_step f _ 110 _ (skipWs_cons _ _ (by decide))]
        norm_num
        simp [dropLit]
      | pyBool b =>
        cases b with
        | false =>
          rw [show render (PyVal.pyBool false) ++ rest =
            102 :: ([97, 108, 115, 101] ++ rest) from rfl]
          rw [parseVal_step f _ 102 _ (skipWs_cons _ _ (by decide))]
          norm_num
          simp [dropLit]
        | true =>
          rw [show render (PyVal.pyBool true) ++ rest =
            116 :: ([114, 117, 101] ++ rest) from rfl]
          rw [parseVal_step f _ 116 _ (skipWs_cons _ _ (by decide))]
          norm_num
          simp [dropLit]
      | pyInt n =>
        rw [show render (PyVal.pyInt n) = intRepr n from rfl]
        exact parseVal_int f n rest hrest
      | pyStr s =>
        have hwfs : wfStr s = true := by simpa [wfVal] using hwf
        have hlen : s.length < (s.flatMap escCp ++ (34 :: rest)).length + 1 := by
          have := length_le_flatMap_escCp s
          simp only [List.length_append, List.length_cons]
          omega
        rw [show render (PyVal.pyStr s) ++ rest =
          34 :: (s.flatMap escCp ++ (34 :: rest)) by
            simp [render, renderStr]]
        rw [parseVal_step f _ 34 _ (skipWs_cons _ _ (by decide))]
        rw [if_neg (by decide : ¬((34:Nat) = 110)), if_neg (by decide : ¬((34:Nat) = 116)),
          if_neg (by decide : ¬((34:Nat) = 102)), if_pos (rfl : (34:Nat) = 34)]
        rw [parseStrAux_body s _ hwfs hlen []]
        simp
      | pyList xs =>
        cases xs with
        | nil =>
          rw [show render (PyVal.pyList []) ++ rest = 91 :: (93 :: rest) from rfl]
          exact parseVal_listNil f _ _ rest (skipWs_cons _ _ (by decide))
            (skipWs_cons _ _ (by decide))
        | cons x xs =>
          have hwfL : wfL (x :: xs) = true := by simpa [wfVal] using hwf
          have hwfx : wfVal x = true := by
            have h := hwfL
            simp only [wfL, Bool.and_eq_true] at h
            exact h.1
          obtain ⟨c2, t2, he, hws, h93, _⟩ := renderElems_head x xs hwfx
          have hsh : renderElems (x :: xs) ++ (93 :: rest) = c2 :: (t2 ++ (93 :: rest)) := by
            rw [he, List.cons_append]
          rw [show render (PyVal.pyList (x :: xs)) ++ rest =
            91 :: (renderElems (x :: xs) ++ (93 :: rest)) by
              simp [render]]
          rw [parseVal_bracket f _ _ c2 (t2 ++ (93 :: rest))
            (skipWs_cons _ _ (by decide)) (by rw [hsh, skipWs_cons _ _ hws]) h93]
          rw [← hsh]
          have := ih2 (x :: xs) [] rest (by simp) hwfL
            (by have : cnt (PyVal.pyList (x :: xs)) = cntL (x :: xs) + 1 := rfl; omega)
          simpa using this
      | pyTuple xs => simp [wfVal] at hwf
      | pyDict kvs =>
        cases kvs with
        | nil =>
          rw [show render (PyVal.pyDict []) ++ rest = 123 :: (125 :: rest) from rfl]
          exact parseVal_dictNil f _ _ rest (skipWs_cons _ _ (by decide))
            (skipWs_cons _ _ (by decide))
        | cons m ms =>
          have hwfM : wfM (m :: ms) = true := by
            have h := hwf
            simp only [wfVal, Bool.and_eq_true] at h
            exact h.1
          obtain ⟨k0, v0⟩ := m
          cases k0 with
          | kInt n => simp [wfM] at hwfM
          | kStr k =>
            have hshape : ∃ t2, renderMembers ((PyKey.kStr k, v0) :: ms) = 34 :: t2 := by
              cases ms with
              | nil =>
                exact ⟨(k.flatMap escCp ++ [34]) ++ (58 :: 32 :: render v0),
                  by simp [renderMembers, renderKey, renderStr, List.append_assoc]⟩
              | cons m2 ms2 =>
                exact ⟨(k.flatMap escCp ++ [34]) ++
                    (58 :: 32 :: (render v0 ++ (44 :: 32 :: renderMembers (m2 :: ms2)))),
                  by simp [renderMembers, renderKey, renderStr, List.append_assoc]⟩
            obtain ⟨t2, he⟩ := hshape
            have hsh : renderMembers ((PyKey.kStr k, v0) :: ms) ++ (125 :: rest) =
                34 :: (t2 ++ (125 :: rest)) := by
              rw [he, List.cons_append]
            rw [show render (PyVal.pyDict ((PyKey.kStr k, v0) :: ms)) ++ rest =
              123 :: (renderMembers ((PyKey.kStr k, v0) :: ms) ++ (125 :: rest)) by
                simp [render]]
            rw [parseVal_brace f _ _ 34 (t2 ++ (125 :: rest))
              (skipWs_cons _ _ (by decide)) (by rw [hsh, skipWs_cons _ _ (by decide)])
              (by decide)]
            rw [← hsh]
            have := ih3 ((PyKey.kStr k, v0) :: ms) [] rest (by simp) hwfM
              (by have : cnt (PyVal.pyDict ((PyKey.kStr k, v0) :: ms)) =
                    cntM ((PyKey.kStr k, v0) :: ms) + 1 := rfl
                  omega)
            simpa using this
      | pyObj => simp [wfVal] at hwf
    · intro l acc rest hne hwf hcnt
      obtain ⟨x, xs, rfl⟩ := List.exists_cons_of_ne_nil hne
      have hwfx : wfVal x = true := by
        have h := hwf
        simp only [wfL, Bool.and_eq_true] at h
        exact h.1
      have hwfxs : wfL xs = true := by
        have h := hwf
        simp only [wfL, Bool.and_eq_true] at h
        exact h.2
      have hcnt2 : cnt x + cntL xs + 1 ≤ f + 1 := by
        have : cntL (x :: xs) = cnt x + cntL xs + 1 := rfl
        omega
      cases xs with
      | nil =>
        have hv := ih1 x (93 :: rest) hwfx (by omega) (by rfl)
        rw [show renderElems [x] ++ (93 :: rest) = render x ++ (93 :: rest) by
          simp [renderElems]]
        rw [parseElems_step f _ acc x (93 :: rest) hv]
        rw [skipWs_cons _ _ (by decide)]
      | cons y ys =>
        have hv := ih1 x (44 :: 32 :: (renderElems (y :: ys) ++ (93 :: rest))) hwfx
          (by omega) (by rfl)
        rw [show renderElems (x :: y :: ys) ++ (93 :: rest) =
          render x ++ (44 :: 32 :: (renderElems (y :: ys) ++ (93 :: rest))) by
            rw [renderElems]
            simp [List.append_assoc]]
        rw [parseElems_step f _ acc x _ hv]
        rw [skipWs_cons _ _ (by decide)]
        show parseElems f (32 :: (renderElems (y :: ys) ++ (93 :: rest))) (acc ++ [x]) = _
        rw [parseElems_space]
        have := ih2 (y :: ys) (acc ++ [x]) rest (by simp) hwfxs (by omega)
        rw [this]
        simp
    · intro l acc rest hne hwf hcnt
      obtain ⟨m, ms, rfl⟩ := List.exists_cons_of_ne_nil hne
      obtain ⟨k0, v0⟩ := m
      cases k0 with
      | kInt n => simp [wfM] at hwf
      | kStr k =>
        have hwfk : wfStr k = true := by
          have h := hwf
          simp only [wfM, Bool.and_eq_true] at h
          exact h.1.1
        have hwfv : wfVal v0 = true := by
          have h := hwf
          simp only [wfM, Bool.and_eq_true] at h
          exact h.1.2
        have hwfms : wfM ms = true := by
          have h := hwf
          simp only [wfM, Bool.and_eq_true] at h
          exact h.2
        have hcnt2 : cnt v0 + cntM ms + 1 ≤ f + 1 := by
          have : cntM ((PyKey.kStr k, v0) :: ms) = cnt v0 + cntM ms + 1 := rfl
          omega
        cases ms with
        | nil =>
          have hinput : renderMembers [(PyKey.kStr k, v0)] ++ (125 :: rest) =
              34 :: (k.flatMap escCp ++
                (34 :: (58 :: 32 :: (render v0 ++ (125 :: rest))))) := by
            simp [renderMembers, renderKey, renderStr, List.append_assoc]
          have hklen : k.length <
              (k.flatMap escCp ++
                (34 :: (58 :: 32 :: (render v0 ++ (125 :: rest))))).length + 1 := by
            have := length_le_flatMap_escCp k
            simp only [List.length_append, List.length_cons]
            omega
          have hkey := parseStrAux_body k _ hwfk hklen []
            (58 :: 32 :: (render v0 ++ (125 :: rest)))
          have hval := ih1 v0 (125 :: rest) hwfv (by omega) (by rfl)
          have h4 : parseVal f (32 :: (render v0 ++ (125 :: rest))) =
              some (v0, 125 :: rest) := by
            rw [parseVal_space]
            exact hval
          rw [hinput]
          rw [parseMembers_step f _ _ acc k _ _ v0 (125 :: rest)
            (skipWs_cons _ _ (by decide)) (by simpa using hkey)
            (skipWs_cons _ _ (by decide)) h4]
          rw [skipWs_cons _ _ (by decide)]
        | cons m2 ms2 =>
          have hinput : renderMembers ((PyKey.kStr k, v0) :: m2 :: ms2) ++ (125 :: rest) =
              34 :: (k.flatMap escCp ++
                (34 :: (58 :: 32 :: (render v0 ++
                  (44 :: 32 :: (renderMembers (m2 :: ms2) ++ (125 :: rest))))))) := by
            rw [renderMembers]
            simp [renderKey, renderStr, List.append_assoc]
          have hklen : k.length <
              (k.flatMap escCp ++
                (34 :: (58 :: 32 :: (render v0 ++
                  (44 :: 32 :: (renderMembers (m2 :: ms2) ++ (125 :: rest))))))).length + 1 := by
            have := length_le_flatMap_escCp k
            simp only [List.length_append, List.length_cons]
            omega
          have hkey := parseStrAux_body k _ hwfk hklen []
            (58 :: 32 :: (render v0 ++
              (44 :: 32 :: (renderMembers (m2 :: ms2) ++ (125 :: rest)))))
          have hval := ih1 v0
            (44 :: 32 :: (renderMembers (m2 :: ms2) ++ (125 :: rest))) hwfv
            (by omega) (by rfl)
          have h4 : parseVal f (32 :: (render v0 ++
              (44 :: 32 :: (renderMembers (m2 :: ms2) ++ (125 :: rest))))) =
              some (v0, 44 :: 32 :: (renderMembers (m2 :: ms2) ++ (125 :: rest))) := by
            rw [parseVal_space]
            exact hval
          rw [hinput]
          rw [parseMembers_step f _ _ acc k _ _ v0 _
            (skipWs_cons _ _ (by decide)) (by simpa using hkey)
            (skipWs_cons _ _ (by decide)) h4]
          rw [skipWs_cons _ _ (by decide)]
          show parseMembers f (32 :: (renderMembers (m2 :: ms2) ++ (125 :: rest)))
            (acc ++ [(PyKey.kStr k, v0)]) = _
          rw [parseMembers_space]
          rw [ih3 (m2 :: ms2) (acc ++ [(PyKey.kStr k, v0)]) rest (by simp) hwfms (by omega)]
          simp

/-- `json.loads` inverts `json.dumps` on the JSON-faithful fragment. -/
theorem loads_render (v : PyVal) (hwf : wfVal v = true) :
    loads (render v) = some v := by
  have hp := (parse_render_all ((render v).length + 1)).1 v [] hwf
    (cnt_le_render v) (by rfl)
  rw [List.append_nil] at hp
  simp [loads, hp, skipWs]

/-- Claim C7 (amended): for every structured payload in the JSON-faithful
    fragment (no tuples, no non-string dictionary keys, strings made of
    Unicode scalar values, keys distinct) that normalization accepts,
    parsing the resulting payload text back as JSON reproduces the original
    structure. The restriction is forced by `claim_C7_counterexample`. -/
theorem claim_C7 (v : PyVal) (validate : Bool) (s : PyStr)
    (hwf : wfVal v = true)
    (hacc : process_event_data (.structured v) validate = .ok (some s)) :
    loads s = some v := by
  have hs : s = render v := by
    rcases hd : dumps v with - | s2
    · simp only [process_event_data, hd] at hacc
      rcases validate with - | -
      · simp at hacc
      · simp at hacc
    · simp only [process_event_data, hd, sizeGate] at hacc
      have hs2 : s2 = render v := by
        by_cases hser : serializable v
        · simpa [dumps, hser] using hd.symm
        · simp [dumps, hser] at hd
      by_cases hcond : validate = true ∧ utf8Len s2 > MAX_DATA_SIZE
      · simp [hcond] at hacc
      · simp only [if_neg hcond, Except.ok.injEq, Option.some.injEq] at hacc
        rw [← hacc, hs2]
  rw [hs]
  exact loads_render v hwf

/-- Counterexample to claim C7 as stated: a dictionary with the integer key
    1 is accepted (the serializer coerces the key to the string "1"), but
    parsing the payload text back yields a dictionary with a string key — a
    different structure; likewise a tuple comes back as a list. -/
theorem claim_C7_counterexample :
    process_event_data (.structured (.pyDict [(.kInt 1, .pyStr (pyOf "a"))])) true
        = .ok (some (pyOf "\x7b\"1\": \"a\"\x7d")) ∧
    loads (pyOf "\x7b\"1\": \"a\"\x7d")
        = some (.pyDict [(.kStr (pyOf "1"), .pyStr (pyOf "a"))]) ∧
    PyVal.pyDict [(.kStr (pyOf "1"), .pyStr (pyOf "a"))] ≠
      PyVal.pyDict [(.kInt 1, .pyStr (pyOf "a"))] ∧
    process_event_data (.structured (.pyTuple [.pyInt 1, .pyInt 2])) true
        = .ok (some (pyOf "[1, 2]")) ∧
    loads (pyOf "[1, 2]") = some (.pyList [.pyInt 1, .pyInt 2]) ∧
    PyVal.pyList [.pyInt 1, .pyInt 2] ≠ PyVal.pyTuple [.pyInt 1, .pyInt 2] := by
  refine ⟨rfl, rfl, ?_, rfl, rfl, ?_⟩
  · intro h
    simp at h
  · intro h
    exact PyVal.noConfusion h

/-- Witness for the amended C7 at a concrete string-keyed dictionary. -/
theorem claim_C7_witness :
    wfVal (.pyDict [(.kStr (pyOf "a"), .pyInt 1)]) = true ∧
    process_event_data (.structured (.pyDict [(.kStr (pyOf "a"), .pyInt 1)])) true
        = .ok (some (pyOf "\x7b\"a\": 1\x7d")) ∧
    loads (pyOf "\x7b\"a\": 1\x7d") = some (.pyDict [(.kStr (pyOf "a"), .pyInt 1)]) :=
  ⟨rfl, rfl, claim_C7 _ true _ rfl rfl⟩
